import Mathlib

/-!
Verification of the review impression-analysis engine of the qrservice
repository (`apps/reviews`): the lexicon/segment analyzer
(`segment_analyzer.py`), the orchestrator (`services.py`), the ML sentiment
classifier wrapper (`ml_analyzer.py`), the analysis cache (`cache.py`) and
the taxonomy (`impression_categories.py`).

Python strings are modelled as `List Char` (Python string indexing is by
code point, matching list indices).  Character positions that Python encodes
with the `-1` sentinel are modelled as `Int`.  Floating point scores are
modelled as `ℚ`.

Parts of the repository that the analysis code imports but that are not
present in the source tree (the lexicon module `dictionaries.py`, the marker
tables `CATEGORY_LEMMAS` / `CATEGORY_MARKERS` / `SUBCATEGORY_MARKERS` and
the segment marker lists of `impression_categories.py`, the pymorphy3
morphological analyzer, the regular-expression engine applied to the unknown
pattern lists, the ML model backends, and the md5 digest) are modelled as
parameters collected in an `Env` structure, so every theorem quantifies over
the missing data.
-/

namespace QRService

/-! ### Python string primitives -/

/-- `str.lower` restricted to ASCII and Cyrillic letters (the alphabets the
analyzer works with: source tokenizes with `[а-яёА-ЯЁ]+`). -/
def pyLowerChar (c : Char) : Char :=
  if 'A' ≤ c ∧ c ≤ 'Z' then Char.ofNat (c.toNat + 32)
  else if 'А' ≤ c ∧ c ≤ 'Я' then Char.ofNat (c.toNat + 32)
  else if c = 'Ё' then 'ё'
  else c

/-- `text.lower()` on the char-list model. -/
def pyLower (cs : List Char) : List Char := cs.map pyLowerChar

/-- Whitespace characters stripped by Python `str.strip()`. -/
def pyIsSpace (c : Char) : Bool :=
  c = ' ' ∨ c = '\t' ∨ c = '\n' ∨ c = '\r' ∨ c = Char.ofNat 11 ∨ c = Char.ofNat 12

/-- `str.strip()`. -/
def pyStrip (cs : List Char) : List Char :=
  (cs.dropWhile pyIsSpace).reverse.dropWhile pyIsSpace |>.reverse

/-- Initial-segment test on char lists (`str.startswith`). -/
def startsL : List Char → List Char → Bool
  | [], _ => true
  | _ :: _, [] => false
  | p :: ps, c :: cs => p = c && startsL ps cs

/-- `str.endswith`. -/
def endsL (p cs : List Char) : Bool := startsL p.reverse cs.reverse

/-- Python `sub in s` (substring containment). -/
def isSubL (p : List Char) : List Char → Bool
  | [] => startsL p []
  | c :: cs => startsL p (c :: cs) || isSubL p cs

/-- Python `s.find(sub)`: index of the first occurrence, `-1` when absent. -/
def findSubPos (p : List Char) : List Char → Int
  | [] => if startsL p [] then 0 else -1
  | c :: cs =>
    if startsL p (c :: cs) then 0
    else
      let r := findSubPos p cs
      if r = -1 then -1 else r + 1

/-- Python slice `s[a:b]` (indices already clamped to naturals). -/
def sliceL (cs : List Char) (a b : Nat) : List Char := (cs.take b).drop a

/-- Characters matched by the tokenizer regex `[а-яёА-ЯЁ]+`. -/
def isCyr (c : Char) : Bool :=
  ('а' ≤ c ∧ c ≤ 'я') ∨ c = 'ё' ∨ ('А' ≤ c ∧ c ≤ 'Я') ∨ c = 'Ё'

/-- `re.findall(r'[а-яёА-ЯЁ]+', s)`: maximal runs of Cyrillic letters.
`acc` holds the caracters of the current run in reverse. -/
def tokenizeAux : List Char → List Char → List (List Char)
  | acc, [] => if acc.isEmpty then [] else [acc.reverse]
  | acc, c :: cs =>
    if isCyr c then tokenizeAux (c :: acc) cs
    else if acc.isEmpty then tokenizeAux [] cs
    else acc.reverse :: tokenizeAux [] cs

def tokenize (cs : List Char) : List (List Char) := tokenizeAux [] cs

/-- Word characters for the regex `\b` boundary (`\w`): letters, digits,
underscore, over the alphabets in play. -/
def isWordChar (c : Char) : Bool :=
  isCyr c ∨ ('a' ≤ c ∧ c ≤ 'z') ∨ ('A' ≤ c ∧ c ≤ 'Z') ∨ c.isDigit ∨ c = '_'

/-- Whether `word` occurs at index `i` of `cs` with `\b` boundaries on both
sides. -/
def boundaryAt (cs word : List Char) (i : Nat) : Bool :=
  startsL word (cs.drop i)
    ∧ (i = 0 ∨ ¬ isWordChar ((cs.drop (i - 1)).headD ' '))
    ∧ ¬ isWordChar ((cs.drop (i + word.length)).headD ' ')

/-- All indices `< n` at which `word` matches with boundaries.  Used to model
`re.finditer(r'\b' + re.escape(word) + r'\b', text)`. -/
def boundaryPositions (cs word : List Char) : List Nat :=
  (List.range (cs.length + 1)).filter (boundaryAt cs word)

/-- `_find_word_position` (segment_analyzer.py:78): first `\b word \b` match
in `text.lower()`, else `-1`. -/
def findWordPos (text word : List Char) : Int :=
  match boundaryPositions (pyLower text) (pyLower word) with
  | [] => -1
  | i :: _ => (i : Int)

/-- `_find_all_word_positions` (segment_analyzer.py:84). -/
def findAllWordPos (text word : List Char) : List Nat :=
  boundaryPositions (pyLower text) (pyLower word)

/-- Association-list lookup modelling `dict.get`. -/
def assocFind (l : List (List Char × α)) (k : List Char) : Option α :=
  (l.find? (fun p => p.1 = k)).map Prod.snd

def assocD (l : List (List Char × α)) (k : List Char) (d : α) : α :=
  (assocFind l k).getD d

/-! ### Data model -/

/-- `SentimentWord = Tuple[str, str, str, int]` (segment_analyzer.py:29):
surface text, lemma, sentiment, character position (`-1` = not found). -/
structure SWord where
  word : List Char
  lem : List Char
  sent : List Char
  posn : Int
deriving DecidableEq

/-- `CategoryMarker = Tuple[str, str, int]` (segment_analyzer.py:30). -/
structure CMarker where
  cat : List Char
  mword : List Char
  posn : Int
deriving DecidableEq

/-- Tag dict produced by `segment_analyzer.py` (five keys). -/
structure Tag where
  category : List Char
  subcategory : List Char
  sentiment : List Char
  marker : List Char
  evidence : List (List Char)
deriving DecidableEq

/-- Tag dict produced by `services.py` (three keys). -/
structure STag where
  category : List Char
  subcategory : List Char
  sentiment : List Char
deriving DecidableEq

/-- Mutable triple `(sentiment_words, positive_found, negative_found)`
threaded through the collector functions of `segment_analyzer.py`. -/
structure CollSt where
  sws : List SWord
  pf : List (List Char)
  nf : List (List Char)
deriving DecidableEq

/-- A compiled regular expression over unknown pattern text is modelled as
the function `re.search` gives rise to: input text to optional
`(match.group(0), match.start())`. -/
def Matcher : Type := List Char → Option (List Char × Nat)

/-- Environment bundling every dependency of the analysis code that is not
in the source tree: the lexicon module `dictionaries.py`, the marker tables
of `impression_categories.py`, the pymorphy3 lemmatizer behind `get_lemma`,
the RuSentiLex data file, the regex engine on the unknown pattern lists, the
ML backends and the md5 digest.  Field names follow the source names. -/
structure Env where
  /-- `get_lemma` (lemmatizer.py:50), backed by pymorphy3. -/
  getLemma : List Char → List Char
  NEGATIVE_LEMMAS : List (List Char)
  POSITIVE_LEMMAS : List (List Char)
  NEGATABLE_WORDS : List (List Char)
  LITOTES : List (List Char)
  EXCLUDED_FROM_SENTIMENT : List (List Char)
  COMPARATIVE_CONTEXT_MARKERS : List (List Char)
  NEGATIVE_PHRASES : List (List Char)
  POSITIVE_PHRASES : List (List Char)
  ADVERB_TO_ADJ : List (List Char × List Char)
  /-- `_load_rusentilex()` result: lemma to sentiment map. -/
  rusentilex : List (List Char × List Char)
  /-- `ASPECT_WAIT_TIME_PATTERNS`: matcher, description, and whether the
  pattern text contains `ЧАС` (then the original-case text is searched,
  segment_analyzer.py:127). -/
  waitPatterns : List (Matcher × List Char × Bool)
  /-- `PERSONNEL_NEGATIVE_PATTERNS`: matcher and description. -/
  personnelPatterns : List (Matcher × List Char)
  /-- `_get_category_lemmas()` result: `CATEGORY_LEMMAS` merged with
  `EXTENDED_CATEGORY_MARKERS` (segment_analyzer.py:65). -/
  categoryLemmas : List (List Char × List (List Char))
  SUBCATEGORY_MARKERS : List (List Char × List (List Char × List (List Char)))
  /-- `CATEGORY_MARKERS` used by `services._find_tags_in_segment`. -/
  CATEGORY_MARKERS : List (List Char × List (List Char))
  /-- Output of `_get_segment_pattern().finditer(text_lower)` together with
  the pos/neg resolution of services.py:150-157: a list of
  `(match.start(), match.end(), marker_type)`. -/
  segmentMatches : List Char → List (Nat × Nat × List Char)
  /-- ONNX backend: `none` = `_load_onnx_model()` returns `False`; on text,
  `.error` models an exception, `.ok (predicted_class, confidence)` the
  tokenizer+session+softmax+argmax numerics of `_analyze_with_onnx`. -/
  onnx : Option (List Char → Except (List Char) (Nat × ℚ))
  /-- transformers pipeline backend: on text, `.ok (label, score)`. -/
  transformers : Option (List Char → Except (List Char) (List Char × ℚ))
  /-- `hashlib.md5(text.encode()).hexdigest()[:16]` (cache.py:20). -/
  md5hex16 : List Char → List Char

/-- `IMPRESSION_CATEGORIES` (impression_categories.py:18-54), the closed
taxonomy. -/
def IMPRESSION_CATEGORIES : List (List Char × List (List Char)) :=
  [("Сервис".data,
    ["Сервис/персонал".data, "Вежливость/уважение".data,
     "Хамство/грубость/конфликт".data, "Внимание/вовлечённость".data,
     "Компетентность/знание меню".data, "Решение проблем/гарантия".data,
     "Коммуникация/тон".data, "Навязывание/апселл".data]),
   ("Скорость".data,
    ["Скорость/ожидание".data, "Скорость обслуживания".data]),
   ("Продукт".data,
    ["Еда/кухня".data, "Напитки/бар".data, "Качество/свежесть".data,
     "Порции/сытость".data]),
   ("Цена".data, ["Цена/ценность".data]),
   ("Комфорт".data, ["Интерьер/атмосфера".data, "Чистота/санитария".data]),
   ("Процесс".data,
    ["Бронирование/стол".data, "Управление/организация зала".data,
     "Заказ/ошибки".data, "Оплата/касса".data, "Доставка/вынос".data,
     "Локация/парковка".data])]

/-! ### segment_analyzer.py -/

/-- Wait-time pattern loop of `_collect_pattern_sentiments`
(segment_analyzer.py:126-131): one negative sentiment word per matching
pattern, in pattern order. -/
def waitSents (env : Env) (text tl : List Char) : List SWord :=
  env.waitPatterns.filterMap fun p =>
    (p.1 (if p.2.2 then text else tl)).map fun m =>
      ⟨m.1, p.2.1, "negative".data, (m.2 : Int)⟩

/-- Personnel pattern loop (segment_analyzer.py:134-139), sentiment words. -/
def personnelSents (env : Env) (tl : List Char) : List SWord :=
  env.personnelPatterns.filterMap fun p =>
    (p.1 tl).map fun m => ⟨m.1, p.2, "negative".data, (m.2 : Int)⟩

/-- Personnel pattern loop, implicit `Сервис` category markers
(segment_analyzer.py:139). -/
def implicitMarkers (env : Env) (tl : List Char) : List CMarker :=
  env.personnelPatterns.filterMap fun p =>
    (p.1 tl).map fun m => ⟨"Сервис".data, m.1, (m.2 : Int)⟩

/-- Negative literal phrase loop (segment_analyzer.py:141-145). -/
def negPhraseSents (env : Env) (tl : List Char) : List SWord :=
  env.NEGATIVE_PHRASES.filterMap fun ph =>
    if isSubL ph tl then some ⟨ph, ph, "negative".data, findSubPos ph tl⟩
    else none

/-- Positive literal phrase loop (segment_analyzer.py:147-151). -/
def posPhraseSents (env : Env) (tl : List Char) : List SWord :=
  env.POSITIVE_PHRASES.filterMap fun ph =>
    if isSubL ph tl then some ⟨ph, ph, "positive".data, findSubPos ph tl⟩
    else none

/-- `_collect_pattern_sentiments` (segment_analyzer.py:115-153). -/
def collectPatternSents (env : Env) (text tl : List Char) :
    CollSt × List CMarker :=
  let ws := waitSents env text tl
  let ps := personnelSents env tl
  let np := negPhraseSents env tl
  let pp := posPhraseSents env tl
  (⟨ws ++ ps ++ np ++ pp,
    pp.map (·.word),
    ws.map (·.word) ++ ps.map (·.word) ++ np.map (·.word)⟩,
   implicitMarkers env tl)

/-- Body of the `_collect_negation_sentiments` loop for one token `w`
preceded by token `pr` (segment_analyzer.py:161-181). -/
def negStep (env : Env) (tl text : List Char) (st : CollSt) (pr w : List Char) :
    CollSt :=
  if pr = "не".data ∨ pr = "нет".data ∨ pr = "ни".data then
    let lm := env.getLemma w
    if lm ∈ env.LITOTES then
      let phrase := "не ".data ++ w
      let p0 := findSubPos phrase tl
      let p := if p0 = -1 then findWordPos text w else p0
      ⟨st.sws ++ [⟨phrase, lm, "positive".data, p⟩], st.pf ++ [phrase], st.nf⟩
    else if lm ∈ env.POSITIVE_LEMMAS ∨ lm ∈ env.NEGATABLE_WORDS then
      let phrase := "не ".data ++ w
      let p0 := findSubPos phrase tl
      let p := if p0 = -1 then findWordPos text w else p0
      ⟨st.sws ++ [⟨phrase, lm, "negative".data, p⟩], st.pf, st.nf ++ [phrase]⟩
    else st
  else st

/-- Loop of `_collect_negation_sentiments`, keeping the previous token. -/
def collectNegationGo (env : Env) (tl text : List Char) :
    List Char → List (List Char) → CollSt → CollSt
  | _, [], st => st
  | pr, w :: rest, st => collectNegationGo env tl text w rest (negStep env tl text st pr w)

/-- `_collect_negation_sentiments` (segment_analyzer.py:156-181): the loop
body fires for tokens at index `i > 0`, with `words[i-1]` as `pr`. -/
def collectNegation (env : Env) (words : List (List Char)) (tl text : List Char)
    (st : CollSt) : CollSt :=
  match words with
  | [] => st
  | w :: rest => collectNegationGo env tl text w rest st

/-- Body of the `_collect_word_sentiments` loop for one token
(segment_analyzer.py:190-225). -/
def wordStep (env : Env) (text tl : List Char)
    (rsl : List (List Char × List Char)) (st : CollSt) (w : List Char) : CollSt :=
  let lm := env.getLemma w
  if st.sws.any (fun sw => isSubL w sw.word) then st
  else
    let wp := findSubPos w tl
    let skipQual :=
      if wp > 0 then
        let pref := pyStrip (sliceL tl (Int.toNat (wp - 12)) (Int.toNat wp))
        endsL "не очень".data pref ∨ endsL "не особо".data pref ∨
          endsL "не слишком".data pref ∨ endsL "не так".data pref
      else false
    if skipQual then st
    else
      let skipComp :=
        (endsL "ее".data w ∨ endsL "ей".data w ∨ endsL "ше".data w) ∧
          w.length > 3 ∧ wp ≥ 0 ∧
          (let ctx := sliceL tl (Int.toNat (wp - 50)) (Int.toNat (wp + w.length + 50))
           env.COMPARATIVE_CONTEXT_MARKERS.any (fun m => isSubL m ctx))
      if skipComp then st
      else
        let lkp := assocD env.ADVERB_TO_ADJ lm lm
        let sent : Option (List Char) :=
          if lm ∈ env.NEGATIVE_LEMMAS ∨ lkp ∈ env.NEGATIVE_LEMMAS then
            some "negative".data
          else if lm ∈ env.POSITIVE_LEMMAS ∨ lkp ∈ env.POSITIVE_LEMMAS then
            some "positive".data
          else if lm ∉ env.EXCLUDED_FROM_SENTIMENT then assocFind rsl lkp
          else none
        match sent with
        | some s =>
          if s = "positive".data then
            ⟨st.sws ++ [⟨w, lm, s, findWordPos text w⟩], st.pf ++ [w], st.nf⟩
          else if s = "negative".data then
            ⟨st.sws ++ [⟨w, lm, s, findWordPos text w⟩], st.pf, st.nf ++ [w]⟩
          else st
        | none => st

/-- `_collect_word_sentiments` (segment_analyzer.py:184-225). -/
def collectWordSents (env : Env) (words : List (List Char)) (text : List Char)
    (rsl : List (List Char × List Char)) (st : CollSt) : CollSt :=
  let tl := pyLower text
  words.foldl (wordStep env text tl rsl) st

/-- Innermost loop of `_find_category_markers` (segment_analyzer.py:236-239):
one marker per not-yet-seen `(category, position)`. -/
def fcmPosFold (cat w : List Char)
    (st : List (List Char × Nat) × List CMarker) (pos : Nat) :
    List (List Char × Nat) × List CMarker :=
  if (cat, pos) ∈ st.1 then st
  else ((cat, pos) :: st.1, st.2 ++ [⟨cat, w, (pos : Int)⟩])

/-- Word loop of `_find_category_markers` (segment_analyzer.py:234-239). -/
def fcmWordFold (env : Env) (text : List Char) (p : List Char × List (List Char))
    (st : List (List Char × Nat) × List CMarker) (w : List Char) :
    List (List Char × Nat) × List CMarker :=
  if env.getLemma w ∈ p.2 then (findAllWordPos text w).foldl (fcmPosFold p.1 w) st
  else st

/-- `_find_category_markers` (segment_analyzer.py:228-240). -/
def findCategoryMarkers (env : Env) (words : List (List Char)) (text : List Char) :
    List CMarker :=
  (env.categoryLemmas.foldl (fun st p => words.foldl (fcmWordFold env text p) st)
    ([], [])).2

/-- Range builder of `split_to_ranges` inside `_get_text_ranges`
(segment_analyzer.py:96-102): parts of `re.split` on a character class,
`(pos, pos + len(part))` with `pos` advancing past each separator. -/
def splitRangesGo (seps : List Char) : Nat → Nat → List Char → List (Nat × Nat)
  | start, i, [] => [(start, i)]
  | start, i, c :: cs =>
    if c ∈ seps then (start, i) :: splitRangesGo seps (i + 1) (i + 1) cs
    else splitRangesGo seps start (i + 1) cs

def splitRanges (seps cs : List Char) : List (Nat × Nat) :=
  splitRangesGo seps 0 0 cs

/-- `_get_text_ranges` (segment_analyzer.py:92-104): phrase ranges split on
`[,;.!?]`, sentence ranges split on `[.!?]`, over `text.lower()`. -/
def getTextRanges (text : List Char) : List (Nat × Nat) × List (Nat × Nat) :=
  let tl := pyLower text
  (splitRanges ",;.!?".data tl, splitRanges ".!?".data tl)

/-- `_position_in_range` (segment_analyzer.py:107-112). -/
def positionInRange (p : Int) (ranges : List (Nat × Nat)) : Nat × Nat :=
  match ranges.find? (fun r => (r.1 : Int) ≤ p ∧ p < (r.2 : Int)) with
  | some r => r
  | none => (0, ((ranges.getLast?).map Prod.snd).getD 0)

/-- Index of the first sentence range containing `p`, `-1` when none: the
`next((i for i, (s, e) in enumerate(sentence_ranges) if s <= marker_pos < e), -1)`
idiom (segment_analyzer.py:288-291 and 352-355). -/
def sentIdxGo (p : Int) : Nat → List (Nat × Nat) → Int
  | _, [] => -1
  | i, r :: rs =>
    if (r.1 : Int) ≤ p ∧ p < (r.2 : Int) then (i : Int) else sentIdxGo p (i + 1) rs

def sentIdx (p : Int) (ranges : List (Nat × Nat)) : Int := sentIdxGo p 0 ranges

/-- The `±1`-sentence extension
`(sentence_ranges[max(0, i-1)][0], sentence_ranges[min(n-1, i+1)][1])`
(segment_analyzer.py:293-294 and 357-358), for a valid index. -/
def extRangeOf (ranges : List (Nat × Nat)) (idx : Int) : Nat × Nat :=
  let i := Int.toNat idx
  ((ranges.getD (i - 1) (0, 0)).1,
   (ranges.getD (min (ranges.length - 1) (i + 1)) (0, 0)).2)

/-- `_count_sentiment_in_range` (segment_analyzer.py:243-258): weight 2 for
surface forms starting with `не `, weight 1 otherwise. -/
def countSentInRange (sws : List SWord) (s e : Int) :
    Nat × Nat × List (List Char) :=
  sws.foldl (fun (st : Nat × Nat × List (List Char)) sw =>
    if sw.posn ≥ 0 ∧ s ≤ sw.posn ∧ sw.posn < e then
      let wt := if startsL "не ".data sw.word then 2 else 1
      if sw.sent = "positive".data then (st.1 + wt, st.2.1, st.2.2 ++ [sw.word])
      else if sw.sent = "negative".data then
        (st.1, st.2.1 + wt, st.2.2 ++ [sw.word])
      else (st.1, st.2.1, st.2.2 ++ [sw.word])
    else st) (0, 0, [])

/-- `_determine_subcategories` (segment_analyzer.py:261-323). -/
def determineSubcats (env : Env) (cat mword : List Char)
    (evidence : List (List Char)) (sws : List SWord) (mpos : Int)
    (sentRanges : List (Nat × Nat)) (text : List Char) : List (List Char) :=
  match assocFind env.SUBCATEGORY_MARKERS cat with
  | none => [(assocD IMPRESSION_CATEGORIES cat ["".data]).headD "".data]
  | some subcatMap =>
    let rl0 := [env.getLemma mword]
    let rl1 := evidence.foldl
      (fun acc w => acc ++ (tokenize (pyLower w)).map env.getLemma) rl0
    let idx := sentIdx mpos sentRanges
    let ext := if idx ≥ 0 then extRangeOf sentRanges idx else (0, 0)
    let rl2 := sws.foldl (fun acc sw =>
      if sw.posn ≥ 0 ∧ (ext.1 : Int) ≤ sw.posn ∧ sw.posn < (ext.2 : Int) then
        acc ++ (tokenize (pyLower sw.lem)).map env.getLemma
          ++ (tokenize (pyLower sw.word)).map env.getLemma
      else acc) rl1
    let rl := if text ≠ [] ∧ ext.2 > ext.1 then
        rl2 ++ (tokenize (pyLower (sliceL text ext.1 ext.2))).map env.getLemma
      else rl2
    let matched := (subcatMap.filter (fun sm => rl.any (fun l => l ∈ sm.2))).map Prod.fst
    if matched ≠ [] then matched
    else [(assocD IMPRESSION_CATEGORIES cat ["".data]).headD "".data]

/-- `_determine_category_sentiment` (segment_analyzer.py:326-376): phrase
window, widened to the sentence and then to `±1` sentences while the counts
are zero; emits one tag per matched subcategory. -/
def determineCategorySent (env : Env) (m : CMarker) (sws : List SWord)
    (phraseRanges sentRanges : List (Nat × Nat)) (text : List Char) : List Tag :=
  let pr := positionInRange m.posn phraseRanges
  let sr := positionInRange m.posn sentRanges
  let c1 := countSentInRange sws (pr.1 : Int) (pr.2 : Int)
  let c2 := if c1.1 = 0 ∧ c1.2.1 = 0 then
      countSentInRange sws (sr.1 : Int) (sr.2 : Int)
    else c1
  let c3 := if c2.1 = 0 ∧ c2.2.1 = 0 then
      let idx := sentIdx m.posn sentRanges
      if idx ≥ 0 then
        let ext := extRangeOf sentRanges idx
        countSentInRange sws (ext.1 : Int) (ext.2 : Int)
      else c2
    else c2
  let fs := if c3.2.1 > c3.1 then "negative".data
    else if c3.1 > c3.2.1 then "positive".data
    else "neutral".data
  let subs := determineSubcats env m.cat m.mword c3.2.2 sws m.posn sentRanges text
  subs.map (fun sc => ⟨m.cat, sc, fs, m.mword, c3.2.2.take 3⟩)

/-- `_create_fallback_result` (segment_analyzer.py:379-391). -/
def createFallback (pf nf : List (List Char)) : Option Tag :=
  if pf = [] ∧ nf = [] then none
  else if nf.length > pf.length then
    some ⟨"Общее".data, "Общее впечатление".data, "negative".data, "-".data, nf.take 3⟩
  else if pf.length > nf.length then
    some ⟨"Общее".data, "Общее впечатление".data, "positive".data, "-".data, pf.take 3⟩
  else
    some ⟨"Общее".data, "Общее впечатление".data, "neutral".data, "-".data, (nf ++ pf).take 3⟩

/-- Deduplication loop of `find_aspect_tags` (segment_analyzer.py:414-422):
first occurrence of each `(category, subcategory)` wins. -/
def dedupTagsGo : List (List Char × List Char) → List Tag → List Tag
  | _, [] => []
  | seen, r :: rs =>
    if (r.category, r.subcategory) ∈ seen then dedupTagsGo seen rs
    else r :: dedupTagsGo ((r.category, r.subcategory) :: seen) rs

def dedupTags (l : List Tag) : List Tag := dedupTagsGo [] l

/-- Tail of `find_aspect_tags` (segment_analyzer.py:424-435): drop `Общее`
when specific categories exist, fall back to the `Общее` tag when nothing
remains. -/
def assembleTags (pf nf : List (List Char)) (l : List Tag) : List Tag :=
  let specific := l.filter (fun r => ¬ r.category = "Общее".data)
  let results := if specific ≠ [] then specific else l
  if results = [] then
    match createFallback pf nf with
    | some t => [t]
    | none => []
  else results

/-- `find_aspect_tags` (segment_analyzer.py:394-435). -/
def find_aspect_tags (env : Env) (text : List Char) : List Tag :=
  if text = [] ∨ pyStrip text = [] then []
  else
    let tl := pyLower text
    let words := tokenize tl
    let q := collectPatternSents env text tl
    let st1 := collectNegation env words tl text q.1
    let st2 := collectWordSents env words text env.rusentilex st1
    let markers := findCategoryMarkers env words text ++ q.2
    let ranges := getTextRanges text
    let results := markers.foldl
      (fun acc m => acc ++ determineCategorySent env m st2.sws ranges.1 ranges.2 text) []
    assembleTags st2.pf st2.nf (dedupTags results)

/-! ### services.py -/

/-- Segment-building loop of `_segment_text` (services.py:163-180), given
the marker matches. -/
def segmentLoop (tl : List Char) :
    Nat → List Char → List (Nat × Nat × List Char) → List (List Char × List Char)
  | prevEnd, prevS, [] =>
    if prevEnd < tl.length then
      let seg := pyStrip (sliceL tl prevEnd tl.length)
      if seg ≠ [] then [(seg, prevS)] else []
    else []
  | prevEnd, prevS, m :: rest =>
    let head := if m.1 > prevEnd then
        let seg := pyStrip (sliceL tl prevEnd m.1)
        if seg ≠ [] then [(seg, prevS)] else []
      else []
    head ++ segmentLoop tl m.2.1 m.2.2 rest

/-- `_segment_text` (services.py:138-182). -/
def segment_text (env : Env) (text : List Char) : List (List Char × List Char) :=
  let tl := pyLower text
  let markers := env.segmentMatches tl
  if markers = [] then [(tl, "default".data)]
  else
    let segs := segmentLoop tl 0 "default".data markers
    if segs = [] then [(tl, "default".data)] else segs

/-- Loop body of `_find_tags_in_segment` (services.py:188-196) for one
`(category, markers)` entry: skip seen categories, emit a tag with the
category's first taxonomy subcategory when a marker occurs in the segment. -/
def ftisStep (env : Env) (seg snt : List Char)
    (st : List STag × List (List Char)) (p : List Char × List (List Char)) :
    List STag × List (List Char) :=
  if p.1 ∈ st.2 then st
  else if p.2.any (fun m => isSubL m seg) then
    (st.1 ++ [⟨p.1, (assocD IMPRESSION_CATEGORIES p.1 ["".data]).headD "".data, snt⟩],
     st.2 ++ [p.1])
  else st

/-- `_find_tags_in_segment` (services.py:185-197), also returning the
updated `found` set. -/
def findTagsInSegment (env : Env) (seg snt : List Char)
    (found : List (List Char)) : List STag × List (List Char) :=
  env.CATEGORY_MARKERS.foldl (ftisStep env seg snt) ([], found)

/-- Per-segment step of `_find_tags` (services.py:206-214). -/
def ftSegStep (env : Env) (base : List Char)
    (st : List STag × List (List Char)) (sp : List Char × List Char) :
    List STag × List (List Char) :=
  let snt := if sp.2 = "default".data then base else sp.2
  let r := findTagsInSegment env sp.1 snt st.2
  (st.1 ++ r.1, r.2)

/-- `_find_tags` (services.py:200-216). -/
def findTags (env : Env) (tl base : List Char) : List STag :=
  ((segment_text env tl).foldl (ftSegStep env base) ([], [])).1

/-! ### ml_analyzer.py -/

/-- Python `round(x, 2)` on the rational model (round half to even). -/
def pyRound2 (q : ℚ) : ℚ :=
  let x := q * 100
  let n := ⌊x⌋
  let r := x - n
  let m : ℤ := if r < mkRat 1 2 then n else if r > mkRat 1 2 then n + 1
    else if n % 2 = 0 then n else n + 1
  (m : ℚ) / 100

/-- `sentiment_to_score` (ml_analyzer.py:154-160). -/
def sentiment_to_score (sentiment : List Char) (confidence : ℚ) : ℚ :=
  if sentiment = "positive".data then pyRound2 confidence
  else if sentiment = "negative".data then pyRound2 (-confidence)
  else 0

/-- `label_map = {0: neutral, 1: positive, 2: negative}` with `.get(_,
neutral)` (ml_analyzer.py:102-103). -/
def onnxLabel (cls : Nat) : List Char :=
  if cls = 0 then "neutral".data
  else if cls = 1 then "positive".data
  else if cls = 2 then "negative".data
  else "neutral".data

/-- `sentiment_map.get(result.label.lower(), neutral)`
(ml_analyzer.py:117-121). -/
def transformersLabel (lbl : List Char) : List Char :=
  let l := pyLower lbl
  if l = "positive".data ∨ l = "negative".data ∨ l = "neutral".data then l
  else "neutral".data

/-- `analyze_sentiment_ml` (ml_analyzer.py:126-151): empty/whitespace text
short-circuits to `(neutral, 0.5)`; then ONNX, then transformers, with every
backend exception caught to `(neutral, 0.5)`; `(neutral, 0.5)` when neither
backend loads.  Each backend receives `text[:512]`. -/
def analyze_sentiment_ml (env : Env) (text : List Char) : List Char × ℚ :=
  if text = [] ∨ pyStrip text = [] then ("neutral".data, mkRat 1 2)
  else
    match env.onnx with
    | some f =>
      match f (text.take 512) with
      | .ok r => (onnxLabel r.1, r.2)
      | .error _ => ("neutral".data, mkRat 1 2)
    | none =>
      match env.transformers with
      | some g =>
        match g (text.take 512) with
        | .ok r => (transformersLabel r.1, r.2)
        | .error _ => ("neutral".data, mkRat 1 2)
      | none => ("neutral".data, mkRat 1 2)

/-- `analyze_review_impressions` (services.py:219-247). -/
def analyze_review_impressions (env : Env) (text : List Char) (rating : Int) :
    List STag × ℚ :=
  let ml := analyze_sentiment_ml env text
  let score := sentiment_to_score ml.1 ml.2
  let base := if ml.2 < mkRat 3 5 then
      (if rating ≥ 4 then "positive".data
       else if rating ≤ 2 then "negative".data
       else "neutral".data)
    else ml.1
  if text = [] then
    ([⟨"Общее".data, "Общее впечатление".data, base⟩], score)
  else
    let tags := findTags env (pyLower text) base
    if tags = [] then
      ([⟨"Общее".data, "Общее впечатление".data, base⟩], score)
    else (tags, score)

/-! ### cache.py -/

/-- A value in the shared Django cache backend: either an analysis result
written by `get_analysis_cached`, or anything some other part of the system
stored. -/
inductive CacheVal where
  | analysis (r : List STag × ℚ)
  | other (s : List Char)
deriving DecidableEq

/-- The shared cache backend (`django.core.cache.cache`), a key-value
store. -/
structure CacheStore where
  entries : List (List Char × CacheVal)
deriving DecidableEq

def cacheGet (s : CacheStore) (k : List Char) : Option CacheVal :=
  assocFind s.entries k

def cacheSet (s : CacheStore) (k : List Char) (v : CacheVal) : CacheStore :=
  ⟨(k, v) :: s.entries.filter (fun e => ¬ e.1 = k)⟩

def cacheDelete (s : CacheStore) (k : List Char) : CacheStore :=
  ⟨s.entries.filter (fun e => ¬ e.1 = k)⟩

/-- `_make_cache_key` (cache.py:18-21). -/
def make_cache_key (env : Env) (text : List Char) (rating : Int) : List Char :=
  "review_analysis:".data ++ env.md5hex16 text ++ ":".data ++ (toString rating).data

/-- `get_analysis_cached` (cache.py:24-53), returning the value and the
updated store. -/
def get_analysis_cached (env : Env) (store : CacheStore) (text : List Char)
    (rating : Int) (forceRefresh : Bool) : CacheVal × CacheStore :=
  if text = [] ∨ pyStrip text = [] then (.analysis ([], mkRat 1 2), store)
  else
    let key := make_cache_key env text rating
    let hit := if ¬ forceRefresh then cacheGet store key else none
    match hit with
    | some v => (v, store)
    | none =>
      let r := analyze_review_impressions env text rating
      (.analysis r, cacheSet store key (.analysis r))

/-- `invalidate_analysis_cache` (cache.py:56-59). -/
def invalidate_analysis_cache (env : Env) (store : CacheStore) (text : List Char)
    (rating : Int) : CacheStore :=
  cacheDelete store (make_cache_key env text rating)

/-- `clear_all_analysis_cache` (cache.py:62-64): calls `cache.clear()` on
the shared backend. -/
def clear_all_analysis_cache (_store : CacheStore) : CacheStore := ⟨[]⟩

/-- Keys the analysis cache owns (the `review_analysis:` namespace of
`_make_cache_key`). -/
def isAnalysisKey (k : List Char) : Bool := startsL "review_analysis:".data k

/-! ### analyze_sentiment_dict (segment_analyzer.py:438-469) -/

/-- `analyze_sentiment_dict` (segment_analyzer.py:438-469): the dictionary
word counts `(sentiment, len(positive_found), len(negative_found))`. -/
def analyze_sentiment_dict (env : Env) (text : List Char) :
    List Char × Nat × Nat :=
  if text = [] ∨ pyStrip text = [] then ("neutral".data, 0, 0)
  else
    let tl := pyLower text
    let words := tokenize tl
    let st0 := (collectPatternSents env text tl).1
    let st1 := collectNegation env words tl text st0
    let st2 := collectWordSents env words text env.rusentilex st1
    let sentiment := if st2.nf.length > st2.pf.length then "negative".data
      else if st2.pf.length > st2.nf.length then "positive".data
      else "neutral".data
    (sentiment, st2.pf.length, st2.nf.length)

/-! ### Conflict detector -/

/-- Modelled from the spec: the conflict detector `isComplex` (spec §4.10)
is not in the source tree — only the persisted flag it computes appears
(`review.tags_complex`, apps/reviews/api.py:123).  Per the spec it counts
positive and negative tags and flags the four rating/tag disagreement
patterns. -/
def is_complex (rating : Int) (tags : List STag) : Bool :=
  let p := (tags.filter (fun t => t.sentiment = "positive".data)).length
  let n := (tags.filter (fun t => t.sentiment = "negative".data)).length
  if rating ≤ 3 ∧ n = 0 ∧ p ≥ 1 then true
  else if rating = 1 ∧ p > n ∧ n > 0 then true
  else if rating = 5 ∧ p = 0 ∧ n ≥ 1 then true
  else if rating ≥ 4 ∧ n > 2 * p ∧ n ≥ 1 then true
  else false

/-- Number of tags whose sentiment field is `positive`. -/
def posTagCount (tags : List STag) : Nat :=
  (tags.filter (fun t => t.sentiment = "positive".data)).length

/-- Number of tags whose sentiment field is `negative`. -/
def negTagCount (tags : List STag) : Nat :=
  (tags.filter (fun t => t.sentiment = "negative".data)).length

/-! ### Statements of spec-side notions

Definitions in this section follow the wording of the specification claims
(not the source); the claim theorems compare them with the source
embeddings above. -/

/-- Claim C2's score formula:
`(positiveCount - negativeCount) / (positiveCount + negativeCount)`. -/
def lexiconRatioScore (p n : Nat) : ℚ := ((p : ℚ) - (n : ℚ)) / ((p : ℚ) + (n : ℚ))

/-- Claim C4/C5's taxonomy validity: the category is a key of the taxonomy
map and the subcategory belongs to that category's list. -/
def validTaxPair (c s : List Char) : Bool :=
  match assocFind IMPRESSION_CATEGORIES c with
  | some subs => s ∈ subs
  | none => false

/-- The generic fallback tag shape of the claims (`Общее` = General,
`Общее впечатление` = General impression). -/
def isGeneralPair (c s : List Char) : Bool :=
  c = "Общее".data ∧ s = "Общее впечатление".data

/-- Claim C6's per-word weight: a surface form starting with the negation
`не ` counts with weight 2, every other word with weight 1. -/
def claimWeight (w : List Char) : Nat := if startsL "не ".data w then 2 else 1

/-- Claim C6's positive weight of a window `[r.1, r.2)`. -/
def claimPosWeight (sws : List SWord) (r : Nat × Nat) : Nat :=
  ((sws.filter (fun sw => (r.1 : Int) ≤ sw.posn ∧ sw.posn < (r.2 : Int) ∧
      sw.sent = "positive".data)).map (fun sw => claimWeight sw.word)).sum

/-- Claim C6's negative weight of a window. -/
def claimNegWeight (sws : List SWord) (r : Nat × Nat) : Nat :=
  ((sws.filter (fun sw => (r.1 : Int) ≤ sw.posn ∧ sw.posn < (r.2 : Int) ∧
      sw.sent = "negative".data)).map (fun sw => claimWeight sw.word)).sum

/-- The window (phrase / sentence / sentence neighborhood) containing a
position: the first range that contains it. -/
def firstContaining (p : Int) (ranges : List (Nat × Nat)) : Option (Nat × Nat) :=
  ranges.find? (fun r => (r.1 : Int) ≤ p ∧ p < (r.2 : Int))

/-- Index of the window containing a position. -/
def firstContainingIdx (p : Int) : Nat → List (Nat × Nat) → Option Nat
  | _, [] => none
  | i, r :: rs =>
    if (r.1 : Int) ≤ p ∧ p < (r.2 : Int) then some i
    else firstContainingIdx p (i + 1) rs

/-- Claim C6's sentence window extended by one neighboring sentence on each
side (clamped at the text boundaries). -/
def claimExtWindow (ranges : List (Nat × Nat)) (i : Nat) : Nat × Nat :=
  ((ranges.getD (i - 1) (0, 0)).1,
   (ranges.getD (min (ranges.length - 1) (i + 1)) (0, 0)).2)

/-- Claim C6's staged aggregation over the three windows `w1 ⊆ w2 ⊆ w3`:
take the phrase counts; if both are zero take the sentence counts; if still
both zero take the extended-window counts; then compare. -/
def claimStagedSentiment (sws : List SWord) (w1 w2 w3 : Nat × Nat) : List Char :=
  let c1 := (claimPosWeight sws w1, claimNegWeight sws w1)
  let c2 := if c1.1 = 0 ∧ c1.2 = 0 then
      (claimPosWeight sws w2, claimNegWeight sws w2)
    else c1
  let c3 := if c2.1 = 0 ∧ c2.2 = 0 then
      (claimPosWeight sws w3, claimNegWeight sws w3)
    else c2
  if c3.2 > c3.1 then "negative".data
  else if c3.1 > c3.2 then "positive".data
  else "neutral".data

/-! ### Concrete environments for witnesses and counterexamples -/

/-- The degenerate environment: every lexicon empty, the lemmatizer the
identity, no segment-marker matches, no ML backend loadable.  Matches the
documented degraded mode (missing RuSentiLex file ⇒ empty map, missing
models ⇒ no backend). -/
def emptyEnv : Env where
  getLemma := id
  NEGATIVE_LEMMAS := []
  POSITIVE_LEMMAS := []
  NEGATABLE_WORDS := []
  LITOTES := []
  EXCLUDED_FROM_SENTIMENT := []
  COMPARATIVE_CONTEXT_MARKERS := []
  NEGATIVE_PHRASES := []
  POSITIVE_PHRASES := []
  ADVERB_TO_ADJ := []
  rusentilex := []
  waitPatterns := []
  personnelPatterns := []
  categoryLemmas := []
  SUBCATEGORY_MARKERS := []
  CATEGORY_MARKERS := []
  segmentMatches := fun _ => []
  onnx := none
  transformers := none
  md5hex16 := fun _ => []

/-- Modelled from the spec: `emptyEnv` with the two dictionary entries the
negation examples exercise — `вкусно` as a positive lemma (spec: "its lemma
is a positive or negatable word") and `плохо` as a litotes word (spec:
"not bad" is litotes); dictionaries.py itself is not part of src/. -/
def litotesEnv : Env :=
  { emptyEnv with
    POSITIVE_LEMMAS := ["вкусно".data]
    LITOTES := ["плохо".data] }

/-- `emptyEnv` with one positive literal phrase, giving a text with exactly
one positive and zero negative lexicon signals. -/
def phraseEnv : Env :=
  { emptyEnv with POSITIVE_PHRASES := ["вкусно".data] }

/-- `emptyEnv` with one category lemma for `Сервис`, so the aspect analyzer
emits a specific-category tag. -/
def serviceEnv : Env :=
  { emptyEnv with categoryLemmas := [("Сервис".data, ["сервис".data])] }

/-! ### Helper lemmas -/

theorem pyStrip_nil_all_space {cs : List Char} (h : pyStrip cs = []) :
    ∀ c ∈ cs, pyIsSpace c := by
  intro c hc
  unfold pyStrip at h
  rw [List.reverse_eq_nil_iff, List.dropWhile_eq_nil_iff] at h
  rcases List.mem_append.mp
    ((List.takeWhile_append_dropWhile pyIsSpace cs) ▸ hc) with h1 | h1
  · exact List.mem_takeWhile_imp h1
  · exact h c (List.mem_reverse.mpr h1)

theorem pyLowerChar_space {c : Char} (h : pyIsSpace c) : pyLowerChar c = c := by
  simp only [pyIsSpace, decide_eq_true_eq] at h
  rcases h with h | h | h | h | h | h <;> subst h <;> decide

/-- Whitespace-only text is fixed by `text.lower()`. -/
theorem pyLower_of_strip_nil {cs : List Char} (h : pyStrip cs = []) :
    pyLower cs = cs := by
  have := pyStrip_nil_all_space h
  calc pyLower cs = cs.map id := List.map_congr_left (fun c hc => pyLowerChar_space (this c hc))
    _ = cs := List.map_id cs

theorem onnxLabel_mem (cls : Nat) :
    onnxLabel cls = "positive".data ∨ onnxLabel cls = "negative".data ∨
      onnxLabel cls = "neutral".data := by
  unfold onnxLabel
  split_ifs <;> simp

theorem transformersLabel_mem (lbl : List Char) :
    transformersLabel lbl = "positive".data ∨ transformersLabel lbl = "negative".data ∨
      transformersLabel lbl = "neutral".data := by
  unfold transformersLabel
  dsimp only
  split_ifs with h
  · rcases h with h | h | h <;> simp [h]
  · simp

/-- Case equations for `analyze_sentiment_ml`. -/
theorem aml_ws (env : Env) {text : List Char} (h : text = [] ∨ pyStrip text = []) :
    analyze_sentiment_ml env text = ("neutral".data, mkRat 1 2) := by
  unfold analyze_sentiment_ml
  rw [if_pos h]

theorem aml_none_none (env : Env) {text : List Char}
    (hws : ¬ (text = [] ∨ pyStrip text = []))
    (h1 : env.onnx = none) (h2 : env.transformers = none) :
    analyze_sentiment_ml env text = ("neutral".data, mkRat 1 2) := by
  unfold analyze_sentiment_ml
  rw [if_neg hws, h1, h2]

theorem aml_onnx_ok (env : Env) {text : List Char}
    {f : List Char → Except (List Char) (Nat × ℚ)} {r : Nat × ℚ}
    (hws : ¬ (text = [] ∨ pyStrip text = []))
    (h1 : env.onnx = some f) (h2 : f (text.take 512) = .ok r) :
    analyze_sentiment_ml env text = (onnxLabel r.1, r.2) := by
  unfold analyze_sentiment_ml
  rw [if_neg hws, h1]
  dsimp only
  rw [h2]

theorem aml_onnx_error (env : Env) {text : List Char}
    {f : List Char → Except (List Char) (Nat × ℚ)} {e : List Char}
    (hws : ¬ (text = [] ∨ pyStrip text = []))
    (h1 : env.onnx = some f) (h2 : f (text.take 512) = .error e) :
    analyze_sentiment_ml env text = ("neutral".data, mkRat 1 2) := by
  unfold analyze_sentiment_ml
  rw [if_neg hws, h1]
  dsimp only
  rw [h2]

theorem aml_tr_ok (env : Env) {text : List Char}
    {g : List Char → Except (List Char) (List Char × ℚ)} {r : List Char × ℚ}
    (hws : ¬ (text = [] ∨ pyStrip text = []))
    (h1 : env.onnx = none) (h2 : env.transformers = some g)
    (h3 : g (text.take 512) = .ok r) :
    analyze_sentiment_ml env text = (transformersLabel r.1, r.2) := by
  unfold analyze_sentiment_ml
  rw [if_neg hws, h1, h2]
  dsimp only
  rw [h3]

theorem aml_tr_error (env : Env) {text : List Char}
    {g : List Char → Except (List Char) (List Char × ℚ)} {e : List Char}
    (hws : ¬ (text = [] ∨ pyStrip text = []))
    (h1 : env.onnx = none) (h2 : env.transformers = some g)
    (h3 : g (text.take 512) = .error e) :
    analyze_sentiment_ml env text = ("neutral".data, mkRat 1 2) := by
  unfold analyze_sentiment_ml
  rw [if_neg hws, h1, h2]
  dsimp only
  rw [h3]

/-- The inner fold of `_find_tags_in_segment` does nothing when no marker
occurs in the segment. -/
theorem findTagsInSegment_fold_no_match (env : Env) (seg snt : List Char)
    (l : List (List Char × List (List Char)))
    (h : ∀ p ∈ l, ∀ m ∈ p.2, isSubL m seg = false) (st : List STag × List (List Char)) :
    l.foldl (ftisStep env seg snt) st = st := by
  induction l generalizing st with
  | nil => rfl
  | cons p rest ih =>
    have hany : p.2.any (fun m => isSubL m seg) = false :=
      List.any_eq_false.mpr (fun m hm => by simp [h p (List.mem_cons_self p rest) m hm])
    have hstep : ftisStep env seg snt st p = st := by
      unfold ftisStep
      rw [hany]
      simp
    rw [List.foldl_cons, hstep]
    exact ih (fun q hq => h q (List.mem_cons_of_mem p hq)) st

theorem findTagsInSegment_no_match (env : Env) (seg snt : List Char)
    (found : List (List Char))
    (h : ∀ p ∈ env.CATEGORY_MARKERS, ∀ m ∈ p.2, isSubL m seg = false) :
    findTagsInSegment env seg snt found = ([], found) :=
  findTagsInSegment_fold_no_match env seg snt env.CATEGORY_MARKERS h ([], found)

/-! ### Claim C10 -/

/-- C10: `clear_all_analysis_cache` calls `cache.clear()` on the shared
backend, so afterwards every key of the backend is gone — including keys
that are not of the analysis cache's `review_analysis:` form. -/
theorem C10_clear_all_clears_whole_backend (store : CacheStore) (k : List Char) :
    (clear_all_analysis_cache store).entries = [] ∧
    cacheGet (clear_all_analysis_cache store) k = none ∧
    (isAnalysisKey k = false → cacheGet (clear_all_analysis_cache store) k = none) :=
  ⟨rfl, rfl, fun _ => rfl⟩

/-! ### Claim C8 -/

/-- C8: `isComplex(rating, tags)` is true exactly when one of the four
rating/tag-sentiment disagreement patterns of the spec holds, counting tags
by their sentiment field, and in particular `isComplex(3, [one negative
tag])` is false. -/
theorem C8_is_complex_characterization (rating : Int) (tags : List STag) :
    (is_complex rating tags = true ↔
      ((rating ≤ 3 ∧ negTagCount tags = 0 ∧ 1 ≤ posTagCount tags) ∨
       (rating = 1 ∧ negTagCount tags < posTagCount tags ∧
         0 < posTagCount tags ∧ 0 < negTagCount tags) ∨
       (rating = 5 ∧ posTagCount tags = 0 ∧ 1 ≤ negTagCount tags) ∨
       (4 ≤ rating ∧ 2 * posTagCount tags < negTagCount tags ∧
         1 ≤ negTagCount tags))) ∧
    is_complex 3 [⟨[], [], "negative".data⟩] = false := by
  refine ⟨?_, by decide⟩
  unfold is_complex posTagCount negTagCount
  dsimp only
  split_ifs with h1 h2 h3 h4
  · simp only [true_iff]; exact Or.inl h1
  · simp only [true_iff]
    exact Or.inr (Or.inl ⟨h2.1, h2.2.1, Nat.lt_of_le_of_lt (Nat.zero_le _) h2.2.1, h2.2.2⟩)
  · simp only [true_iff]; exact Or.inr (Or.inr (Or.inl h3))
  · simp only [true_iff]; exact Or.inr (Or.inr (Or.inr h4))
  · simp only [false_iff]
    rintro (h | h | h | h)
    · exact h1 ⟨h.1, h.2.1, h.2.2⟩
    · exact h2 ⟨h.1, h.2.1, h.2.2.2⟩
    · exact h3 ⟨h.1, h.2.1, h.2.2⟩
    · exact h4 ⟨h.1, h.2.1, h.2.2⟩

/-! ### Claim C9 -/

/-- C9: for every input text, `analyze_sentiment_ml` returns a label in
the positive/negative/neutral set and (under the backend contract that a
successful inference yields a confidence in `[0, 1]`) a confidence in
`[0, 1]`; a backend exception is caught and yields `(neutral, 0.5)` rather
than propagating; and when neither backend loads the result is
`(neutral, 0.5)`. -/
theorem C9_ml_classifier_contract (env : Env)
    (honnx : ∀ f, env.onnx = some f →
      ∀ s cls conf, f s = .ok (cls, conf) → 0 ≤ conf ∧ conf ≤ 1)
    (htr : ∀ g, env.transformers = some g →
      ∀ s lbl conf, g s = .ok (lbl, conf) → 0 ≤ conf ∧ conf ≤ 1)
    (text : List Char) :
    ((analyze_sentiment_ml env text).1 = "positive".data ∨
     (analyze_sentiment_ml env text).1 = "negative".data ∨
     (analyze_sentiment_ml env text).1 = "neutral".data) ∧
    (0 ≤ (analyze_sentiment_ml env text).2 ∧ (analyze_sentiment_ml env text).2 ≤ 1) ∧
    (env.onnx = none → env.transformers = none →
      analyze_sentiment_ml env text = ("neutral".data, mkRat 1 2)) ∧
    (∀ f e, env.onnx = some f → f (text.take 512) = .error e →
      analyze_sentiment_ml env text = ("neutral".data, mkRat 1 2)) ∧
    (∀ g e, env.onnx = none → env.transformers = some g →
      g (text.take 512) = .error e →
      analyze_sentiment_ml env text = ("neutral".data, mkRat 1 2)) := by
  have hhalf : (0 : ℚ) ≤ mkRat 1 2 ∧ mkRat 1 2 ≤ 1 := by decide
  by_cases hws : text = [] ∨ pyStrip text = []
  · rw [aml_ws env hws]
    exact ⟨Or.inr (Or.inr rfl), hhalf, fun _ _ => rfl, fun _ _ _ _ => rfl,
      fun _ _ _ _ _ => rfl⟩
  · rcases honnxv : env.onnx with _ | f
    · rcases htrv : env.transformers with _ | g
      · rw [aml_none_none env hws honnxv htrv]
        exact ⟨Or.inr (Or.inr rfl), hhalf, fun _ _ => rfl, fun _ _ _ _ => rfl,
          fun _ _ _ _ _ => rfl⟩
      · rcases hres : g (text.take 512) with e | r
        · rw [aml_tr_error env hws honnxv htrv hres]
          exact ⟨Or.inr (Or.inr rfl), hhalf, fun _ _ => rfl, fun _ _ _ _ => rfl,
            fun _ _ _ _ _ => rfl⟩
        · rw [aml_tr_ok env hws honnxv htrv hres]
          refine ⟨transformersLabel_mem r.1, ?_, ?_, ?_, ?_⟩
          · exact htr g htrv (text.take 512) r.1 r.2 (by rw [hres])
          · intro _ h
            exact absurd h (by simp)
          · intro f e h _
            exact absurd h (by simp)
          · intro g' e _ hg' he
            have hg : g = g' := Option.some_inj.mp hg'
            have hge : g (text.take 512) = .error e := by rw [hg]; exact he
            exact absurd (hres.symm.trans hge) (by simp)
    · rcases hres : f (text.take 512) with e | r
      · rw [aml_onnx_error env hws honnxv hres]
        exact ⟨Or.inr (Or.inr rfl), hhalf, fun _ _ => rfl, fun _ _ _ _ => rfl,
          fun _ _ _ _ _ => rfl⟩
      · rw [aml_onnx_ok env hws honnxv hres]
        refine ⟨onnxLabel_mem r.1, ?_, ?_, ?_, ?_⟩
        · exact honnx f honnxv (text.take 512) r.1 r.2 (by rw [hres])
        · intro h
          exact absurd h (by simp)
        · intro f' e hf' he
          have hf : f = f' := Option.some_inj.mp hf'
          have hfe : f (text.take 512) = .error e := by rw [hf]; exact he
          exact absurd (hres.symm.trans hfe) (by simp)
        · intro _ _ h
          exact absurd h (by simp)

/-- Witness for C9 at the concrete no-backend environment and a concrete
text. -/
theorem C9_witness :
    ((analyze_sentiment_ml emptyEnv "привет".data).1 = "positive".data ∨
     (analyze_sentiment_ml emptyEnv "привет".data).1 = "negative".data ∨
     (analyze_sentiment_ml emptyEnv "привет".data).1 = "neutral".data) ∧
    (0 ≤ (analyze_sentiment_ml emptyEnv "привет".data).2 ∧
      (analyze_sentiment_ml emptyEnv "привет".data).2 ≤ 1) ∧
    (emptyEnv.onnx = none → emptyEnv.transformers = none →
      analyze_sentiment_ml emptyEnv "привет".data = ("neutral".data, mkRat 1 2)) ∧
    (∀ f e, emptyEnv.onnx = some f → f ("привет".data.take 512) = .error e →
      analyze_sentiment_ml emptyEnv "привет".data = ("neutral".data, mkRat 1 2)) ∧
    (∀ g e, emptyEnv.onnx = none → emptyEnv.transformers = some g →
      g ("привет".data.take 512) = .error e →
      analyze_sentiment_ml emptyEnv "привет".data = ("neutral".data, mkRat 1 2)) :=
  C9_ml_classifier_contract emptyEnv
    (fun f hf => absurd hf (by simp [emptyEnv]))
    (fun g hg => absurd hg (by simp [emptyEnv]))
    "привет".data

/-! ### Claim C2 -/

/-- Counterexample to C2: with one positive lexicon signal in the text
(`positiveCount = 1`, `negativeCount = 0`), the claimed score is `1`, but
`analyze_review_impressions` returns the ML-derived score, here `0` (no
backend loadable ⇒ neutral).  The score formula of the claim is not what
services.py computes. -/
theorem C2_counterexample_score_not_lexicon_ratio :
    (analyze_sentiment_dict phraseEnv "вкусно".data).2 = (1, 0) ∧
    lexiconRatioScore 1 0 = 1 ∧
    (analyze_review_impressions phraseEnv "вкусно".data 3).2 = 0 ∧
    (analyze_review_impressions phraseEnv "вкусно".data 3).2 ≠ lexiconRatioScore 1 0 := by
  refine ⟨by decide, ?_, by decide, ?_⟩
  · unfold lexiconRatioScore; norm_num
  · have h0 : (analyze_review_impressions phraseEnv "вкусно".data 3).2 = 0 := by decide
    rw [h0]
    unfold lexiconRatioScore
    norm_num

/-- C2 amended: the sentiment score of `analyze_review_impressions` is
always the ML-derived signed-confidence score
`sentiment_to_score(analyze_sentiment_ml(text))` — for every text and
rating, never the lexicon word-count ratio and never a rating-derived
value (the rating only influences the fallback tag sentiment). -/
theorem C2_amended_score_is_ml_score (env : Env) (text : List Char) (rating : Int) :
    (analyze_review_impressions env text rating).2 =
      sentiment_to_score (analyze_sentiment_ml env text).1
        (analyze_sentiment_ml env text).2 := by
  unfold analyze_review_impressions
  dsimp only
  split_ifs <;> rfl

/-! ### Claim C3 -/

/-- Counterexample to C3: for empty text (no cache entry exists), the cached
accessor returns `([], 0.5)` while `analyze_review_impressions` returns the
`Общее` fallback tag with score `0`. -/
theorem C3_counterexample_empty_text :
    (get_analysis_cached emptyEnv ⟨[]⟩ [] 3 false).1 ≠
      CacheVal.analysis (analyze_review_impressions emptyEnv [] 3) := by decide

/-- C3 amended: for every non-empty, non-whitespace-only text, on a cache
miss or a forced refresh `get_analysis_cached` returns exactly the
`analyze_review_impressions` result; for empty or whitespace-only text it
instead short-circuits to `([], 0.5)`, which differs from `analyze`. -/
theorem C3_amended_cache_miss_matches_analyze (env : Env) (store : CacheStore)
    (text : List Char) (rating : Int) (force : Bool)
    (hws : ¬ pyStrip text = [])
    (hmiss : force = true ∨ cacheGet store (make_cache_key env text rating) = none) :
    (get_analysis_cached env store text rating force).1 =
      .analysis (analyze_review_impressions env text rating) := by
  have htext : ¬ (text = [] ∨ pyStrip text = []) := by
    rintro (h | h)
    · exact hws (by rw [h]; rfl)
    · exact hws h
  unfold get_analysis_cached
  rw [if_neg htext]
  rcases hmiss with hf | hm
  · subst hf; rfl
  · dsimp only
    rcases hforce : force with _ | _
    · subst hforce
      rw [if_pos (by decide : ¬ (false = true)), hm]
    · rfl

/-- Witness for C3 at a concrete environment, empty store and non-empty
text. -/
theorem C3_witness :
    (get_analysis_cached emptyEnv ⟨[]⟩ "привет".data 4 false).1 =
      .analysis (analyze_review_impressions emptyEnv "привет".data 4) :=
  C3_amended_cache_miss_matches_analyze emptyEnv ⟨[]⟩ "привет".data 4 false
    (by decide) (Or.inr rfl)

end QRService

namespace QRService

/-! ### Claim C1 -/

/-- `_find_tags` finds nothing when the text has no segment-marker matches
and no category marker occurs in it (as for whitespace-only text). -/
theorem findTags_ws (env : Env) (text base : List Char)
    (hlow : pyLower text = text)
    (hseg : env.segmentMatches text = [])
    (hmark : ∀ p ∈ env.CATEGORY_MARKERS, ∀ m ∈ p.2, isSubL m text = false) :
    findTags env text base = [] := by
  simp only [findTags, segment_text, hlow, hseg, if_true, List.foldl_cons,
    List.foldl_nil]
  unfold ftSegStep
  dsimp only
  rw [if_pos rfl, findTagsInSegment_no_match env text base [] hmark]
  rfl

/-- Counterexample to C1: for empty text and rating 5 the claim demands
`sentimentScore = +1`, but `analyze_review_impressions` returns score `0`
(the ML path short-circuits empty text to `(neutral, 0.5)` and
`sentiment_to_score(neutral, _) = 0`); the single rating-derived `Общее`
tag, however, is as claimed. -/
theorem C1_counterexample_empty_text_score :
    (analyze_review_impressions emptyEnv [] 5).1 =
      [⟨"Общее".data, "Общее впечатление".data, "positive".data⟩] ∧
    (analyze_review_impressions emptyEnv [] 5).2 = 0 ∧
    (analyze_review_impressions emptyEnv [] 5).2 ≠ 1 := by decide

/-- C1 amended: for every rating and every empty or whitespace-only text
(no segment-marker match, no category marker occurs in whitespace),
`analyze_review_impressions` returns exactly one tag
`(Общее, Общее впечатление)` whose sentiment is positive when `rating ≥ 4`,
negative when `rating ≤ 2` and neutral otherwise — but the sentiment score
is always `0`, not the rating-derived one of the claim. -/
theorem C1_amended_empty_or_ws (env : Env) (text : List Char) (rating : Int)
    (hws : pyStrip text = [])
    (hseg : env.segmentMatches text = [])
    (hmark : ∀ p ∈ env.CATEGORY_MARKERS, ∀ m ∈ p.2, isSubL m text = false) :
    analyze_review_impressions env text rating =
      ([⟨"Общее".data, "Общее впечатление".data,
        if rating ≥ 4 then "positive".data
        else if rating ≤ 2 then "negative".data
        else "neutral".data⟩], 0) := by
  have hlow : pyLower text = text := pyLower_of_strip_nil hws
  have hml : analyze_sentiment_ml env text = ("neutral".data, mkRat 1 2) :=
    aml_ws env (Or.inr hws)
  have hsc : sentiment_to_score "neutral".data (mkRat 1 2) = 0 := by decide
  unfold analyze_review_impressions
  rw [hml]
  dsimp only
  rw [hsc, if_pos (by decide : mkRat 1 2 < mkRat 3 5)]
  by_cases htext : text = []
  · rw [if_pos htext]
  · rw [if_neg htext, hlow, findTags_ws env text _ hlow hseg hmark, if_pos rfl]

/-- Witness for C1 at a concrete whitespace-only text and rating 2. -/
theorem C1_witness :
    analyze_review_impressions emptyEnv "  ".data 2 =
      ([⟨"Общее".data, "Общее впечатление".data,
        if (2 : Int) ≥ 4 then "positive".data
        else if (2 : Int) ≤ 2 then "negative".data
        else "neutral".data⟩], 0) :=
  C1_amended_empty_or_ws emptyEnv "  ".data 2 (by decide) rfl
    (fun p hp => absurd hp (List.not_mem_nil p))

end QRService

namespace QRService

/-! ### Claim C7 -/

/-- `negStep` only appends to `positive_found`. -/
theorem negStep_mono_pf (env : Env) (tl text : List Char) (st : CollSt)
    (pr w : List Char) {x : List Char} (h : x ∈ st.pf) :
    x ∈ (negStep env tl text st pr w).pf := by
  unfold negStep
  dsimp only
  split_ifs <;> first | exact h | exact List.mem_append_left _ h

/-- `negStep` only appends to `negative_found`. -/
theorem negStep_mono_nf (env : Env) (tl text : List Char) (st : CollSt)
    (pr w : List Char) {x : List Char} (h : x ∈ st.nf) :
    x ∈ (negStep env tl text st pr w).nf := by
  unfold negStep
  dsimp only
  split_ifs <;> first | exact h | exact List.mem_append_left _ h

/-- The loop of `_collect_negation_sentiments` only appends to
`positive_found`. -/
theorem collectNegationGo_mono_pf (env : Env) (tl text : List Char) :
    ∀ (rest : List (List Char)) (pr : List Char) (st : CollSt) {x : List Char},
      x ∈ st.pf → x ∈ (collectNegationGo env tl text pr rest st).pf := by
  intro rest
  induction rest with
  | nil => intro pr st x h; exact h
  | cons r rs ih =>
    intro pr st x h
    exact ih r (negStep env tl text st pr r) (negStep_mono_pf env tl text st pr r h)

theorem collectNegationGo_mono_nf (env : Env) (tl text : List Char) :
    ∀ (rest : List (List Char)) (pr : List Char) (st : CollSt) {x : List Char},
      x ∈ st.nf → x ∈ (collectNegationGo env tl text pr rest st).nf := by
  intro rest
  induction rest with
  | nil => intro pr st x h; exact h
  | cons r rs ih =>
    intro pr st x h
    exact ih r (negStep env tl text st pr r) (negStep_mono_nf env tl text st pr r h)

/-- When a token is preceded by a negation token, `negStep` records the
bigram: as positive evidence for a litotes lemma, as negative evidence for a
positive or negatable lemma. -/
theorem negStep_fires (env : Env) (tl text : List Char) (st : CollSt)
    (pr w : List Char) (hneg : pr = "не".data ∨ pr = "нет".data ∨ pr = "ни".data) :
    (env.getLemma w ∈ env.LITOTES →
      "не ".data ++ w ∈ (negStep env tl text st pr w).pf) ∧
    (env.getLemma w ∉ env.LITOTES →
      (env.getLemma w ∈ env.POSITIVE_LEMMAS ∨ env.getLemma w ∈ env.NEGATABLE_WORDS) →
      "не ".data ++ w ∈ (negStep env tl text st pr w).nf) := by
  constructor
  · intro hlit
    unfold negStep
    dsimp only
    rw [if_pos hneg, if_pos hlit]
    exact List.mem_append_right _ (List.mem_singleton.mpr rfl)
  · intro hlit hpos
    unfold negStep
    dsimp only
    rw [if_pos hneg, if_neg hlit, if_pos hpos]
    exact List.mem_append_right _ (List.mem_singleton.mpr rfl)

/-- Firing lemma for the whole loop: every adjacent pair
`(words[i-1], words[i])` is processed. -/
theorem collectNegationGo_fires (env : Env) (tl text : List Char) :
    ∀ (rest : List (List Char)) (pr : List Char) (st : CollSt) (x y : List Char),
      (x, y) ∈ (pr :: rest).zip rest →
      (x = "не".data ∨ x = "нет".data ∨ x = "ни".data) →
      ((env.getLemma y ∈ env.LITOTES →
          "не ".data ++ y ∈ (collectNegationGo env tl text pr rest st).pf) ∧
       (env.getLemma y ∉ env.LITOTES →
          (env.getLemma y ∈ env.POSITIVE_LEMMAS ∨ env.getLemma y ∈ env.NEGATABLE_WORDS) →
          "не ".data ++ y ∈ (collectNegationGo env tl text pr rest st).nf)) := by
  intro rest
  induction rest with
  | nil => intro pr st x y hmem; exact absurd hmem (List.not_mem_nil _)
  | cons r rs ih =>
    intro pr st x y hmem hneg
    rw [List.zip_cons_cons, List.mem_cons] at hmem
    rcases hmem with hhead | htail
    · have hx : x = pr := congrArg Prod.fst hhead
      have hy : y = r := congrArg Prod.snd hhead
      subst hx; subst hy
      have hf := negStep_fires env tl text st x y hneg
      constructor
      · intro hlit
        exact collectNegationGo_mono_pf env tl text rs y _ (hf.1 hlit)
      · intro hlit hpos
        exact collectNegationGo_mono_nf env tl text rs y _ (hf.2 hlit hpos)
    · exact ih r (negStep env tl text st pr r) x y htail hneg

/-- C7: (1) for every token immediately preceded by `не`/`нет`/`ни` whose
lemma is in the positive-lemma or negatable-word sets,
`_collect_negation_sentiments` records the bigram `не <word>` as negative
evidence — unless the lemma is in the litotes set, in which case the bigram
is recorded as positive evidence; consequently (2) the aspect analysis of a
`не вкусно` text yields a Negative-sentiment tag and (3) that of the litotes
text `не плохо` yields a Positive-sentiment tag (concrete dictionaries
modelled from the spec: `вкусно` positive, `плохо` litotes). -/
theorem C7_negation_and_litotes :
    (∀ (env : Env) (words : List (List Char)) (tl text : List Char) (st : CollSt)
       (x y : List Char), (x, y) ∈ words.zip words.tail →
       (x = "не".data ∨ x = "нет".data ∨ x = "ни".data) →
       ((env.getLemma y ∈ env.LITOTES →
           "не ".data ++ y ∈ (collectNegation env words tl text st).pf) ∧
        (env.getLemma y ∉ env.LITOTES →
           (env.getLemma y ∈ env.POSITIVE_LEMMAS ∨ env.getLemma y ∈ env.NEGATABLE_WORDS) →
           "не ".data ++ y ∈ (collectNegation env words tl text st).nf))) ∧
    (∃ t ∈ find_aspect_tags litotesEnv "не вкусно".data,
       t.sentiment = "negative".data) ∧
    (∃ t ∈ find_aspect_tags litotesEnv "не плохо".data,
       t.sentiment = "positive".data) := by
  refine ⟨?_, by decide, by decide⟩
  intro env words tl text st x y hmem hneg
  match words with
  | [] => exact absurd hmem (List.not_mem_nil _)
  | w :: rest => exact collectNegationGo_fires env tl text rest w st x y hmem hneg

/-- Witness for C7's conditional part: the bigram `не вкусно` lands in
`negative_found` for the concrete environment and token list. -/
theorem C7_witness :
    "не вкусно".data ∈ (collectNegation litotesEnv ["не".data, "вкусно".data]
      "не вкусно".data "не вкусно".data ⟨[], [], []⟩).nf :=
  (C7_negation_and_litotes.1 litotesEnv ["не".data, "вкусно".data]
    "не вкусно".data "не вкусно".data ⟨[], [], []⟩ "не".data "вкусно".data
    (by decide) (Or.inl rfl)).2 (by decide) (Or.inl (by decide))

end QRService

namespace QRService

/-! ### Claim C6 -/

theorem claimPosWeight_nil (r : Nat × Nat) : claimPosWeight [] r = 0 := rfl

theorem claimNegWeight_nil (r : Nat × Nat) : claimNegWeight [] r = 0 := rfl

theorem claimPosWeight_cons (sw : SWord) (rest : List SWord) (r : Nat × Nat) :
    claimPosWeight (sw :: rest) r =
      (if (r.1 : Int) ≤ sw.posn ∧ sw.posn < (r.2 : Int) ∧ sw.sent = "positive".data
        then claimWeight sw.word else 0) + claimPosWeight rest r := by
  unfold claimPosWeight
  rw [List.filter_cons]
  split_ifs with h1 h2 h2
  · rw [List.map_cons, List.sum_cons]
  · exact absurd (of_decide_eq_true h1) h2
  · exact absurd (decide_eq_true h2) h1
  · rw [Nat.zero_add]

theorem claimNegWeight_cons (sw : SWord) (rest : List SWord) (r : Nat × Nat) :
    claimNegWeight (sw :: rest) r =
      (if (r.1 : Int) ≤ sw.posn ∧ sw.posn < (r.2 : Int) ∧ sw.sent = "negative".data
        then claimWeight sw.word else 0) + claimNegWeight rest r := by
  unfold claimNegWeight
  rw [List.filter_cons]
  split_ifs with h1 h2 h2
  · rw [List.map_cons, List.sum_cons]
  · exact absurd (of_decide_eq_true h1) h2
  · exact absurd (decide_eq_true h2) h1
  · rw [Nat.zero_add]

/-- Positive-count accumulator form of `_count_sentiment_in_range`. -/
theorem countSent_aux_pos (a b : Nat) :
    ∀ (sws : List SWord) (acc : Nat × Nat × List (List Char)),
      (List.foldl (fun (st : Nat × Nat × List (List Char)) sw =>
        if sw.posn ≥ 0 ∧ (a : Int) ≤ sw.posn ∧ sw.posn < (b : Int) then
          let wt := if startsL "не ".data sw.word then 2 else 1
          if sw.sent = "positive".data then (st.1 + wt, st.2.1, st.2.2 ++ [sw.word])
          else if sw.sent = "negative".data then
            (st.1, st.2.1 + wt, st.2.2 ++ [sw.word])
          else (st.1, st.2.1, st.2.2 ++ [sw.word])
        else st) acc sws).1 = acc.1 + claimPosWeight sws (a, b) := by
  intro sws
  induction sws with
  | nil =>
    intro acc
    rw [List.foldl_nil, claimPosWeight_nil, Nat.add_zero]
  | cons sw rest ih =>
    intro acc
    rw [List.foldl_cons, ih _, claimPosWeight_cons]
    by_cases hin : sw.posn ≥ 0 ∧ (a : Int) ≤ sw.posn ∧ sw.posn < (b : Int)
    · rw [if_pos hin]
      dsimp only
      by_cases hp : sw.sent = "positive".data
      · rw [if_pos hp]
        dsimp only
        rw [if_pos (show (a : Int) ≤ sw.posn ∧ sw.posn < (b : Int) ∧
            sw.sent = "positive".data from ⟨hin.2.1, hin.2.2, hp⟩)]
        unfold claimWeight
        rw [show "не ".data = ['н', 'е', ' '] from rfl]
        omega
      · by_cases hn : sw.sent = "negative".data
        · rw [if_neg hp, if_pos hn]
          dsimp only
          rw [if_neg (show ¬ ((a : Int) ≤ sw.posn ∧ sw.posn < (b : Int) ∧
              sw.sent = "positive".data) from fun hq => hp hq.2.2)]
          omega
        · rw [if_neg hp, if_neg hn]
          dsimp only
          rw [if_neg (show ¬ ((a : Int) ≤ sw.posn ∧ sw.posn < (b : Int) ∧
              sw.sent = "positive".data) from fun hq => hp hq.2.2)]
          omega
    · have hrange : ¬ ((a : Int) ≤ sw.posn ∧ sw.posn < (b : Int)) := by
        intro hq
        exact hin ⟨le_trans (Int.natCast_nonneg a) hq.1, hq⟩
      rw [if_neg hin,
        if_neg (show ¬ ((a : Int) ≤ sw.posn ∧ sw.posn < (b : Int) ∧
          sw.sent = "positive".data) from fun hq => hrange ⟨hq.1, hq.2.1⟩)]
      omega

/-- Negative-count accumulator form of `_count_sentiment_in_range`. -/
theorem countSent_aux_neg (a b : Nat) :
    ∀ (sws : List SWord) (acc : Nat × Nat × List (List Char)),
      (List.foldl (fun (st : Nat × Nat × List (List Char)) sw =>
        if sw.posn ≥ 0 ∧ (a : Int) ≤ sw.posn ∧ sw.posn < (b : Int) then
          let wt := if startsL "не ".data sw.word then 2 else 1
          if sw.sent = "positive".data then (st.1 + wt, st.2.1, st.2.2 ++ [sw.word])
          else if sw.sent = "negative".data then
            (st.1, st.2.1 + wt, st.2.2 ++ [sw.word])
          else (st.1, st.2.1, st.2.2 ++ [sw.word])
        else st) acc sws).2.1 = acc.2.1 + claimNegWeight sws (a, b) := by
  intro sws
  induction sws with
  | nil =>
    intro acc
    rw [List.foldl_nil, claimNegWeight_nil, Nat.add_zero]
  | cons sw rest ih =>
    intro acc
    rw [List.foldl_cons, ih _, claimNegWeight_cons]
    by_cases hin : sw.posn ≥ 0 ∧ (a : Int) ≤ sw.posn ∧ sw.posn < (b : Int)
    · rw [if_pos hin]
      dsimp only
      by_cases hp : sw.sent = "positive".data
      · rw [if_pos hp]
        dsimp only
        rw [if_neg (show ¬ ((a : Int) ≤ sw.posn ∧ sw.posn < (b : Int) ∧
            sw.sent = "negative".data) from
          fun hq => absurd (hp.symm.trans hq.2.2) (by decide))]
        omega
      · by_cases hn : sw.sent = "negative".data
        · rw [if_neg hp, if_pos hn]
          dsimp only
          rw [if_pos (show (a : Int) ≤ sw.posn ∧ sw.posn < (b : Int) ∧
              sw.sent = "negative".data from ⟨hin.2.1, hin.2.2, hn⟩)]
          unfold claimWeight
          rw [show "не ".data = ['н', 'е', ' '] from rfl]
          omega
        · rw [if_neg hp, if_neg hn]
          dsimp only
          rw [if_neg (show ¬ ((a : Int) ≤ sw.posn ∧ sw.posn < (b : Int) ∧
              sw.sent = "negative".data) from fun hq => hn hq.2.2)]
          omega
    · have hrange : ¬ ((a : Int) ≤ sw.posn ∧ sw.posn < (b : Int)) := by
        intro hq
        exact hin ⟨le_trans (Int.natCast_nonneg a) hq.1, hq⟩
      rw [if_neg hin,
        if_neg (show ¬ ((a : Int) ≤ sw.posn ∧ sw.posn < (b : Int) ∧
          sw.sent = "negative".data) from fun hq => hrange ⟨hq.1, hq.2.1⟩)]
      omega

theorem countSentInRange_fst (sws : List SWord) (r : Nat × Nat) :
    (countSentInRange sws (r.1 : Int) (r.2 : Int)).1 = claimPosWeight sws r := by
  have h := countSent_aux_pos r.1 r.2 sws (0, 0, [])
  unfold countSentInRange
  rw [h, Nat.zero_add, Prod.mk.eta]

theorem countSentInRange_snd (sws : List SWord) (r : Nat × Nat) :
    (countSentInRange sws (r.1 : Int) (r.2 : Int)).2.1 = claimNegWeight sws r := by
  have h := countSent_aux_neg r.1 r.2 sws (0, 0, [])
  unfold countSentInRange
  rw [h, Nat.zero_add, Prod.mk.eta]

/-- `_position_in_range` returns the first containing range when one
exists. -/
theorem positionInRange_of_firstContaining {p : Int} {ranges : List (Nat × Nat)}
    {r : Nat × Nat} (h : firstContaining p ranges = some r) :
    positionInRange p ranges = r := by
  unfold positionInRange
  unfold firstContaining at h
  rw [h]

/-- The `next(..., -1)` index idiom versus `firstContainingIdx`. -/
theorem sentIdxGo_eq (p : Int) :
    ∀ (rs : List (Nat × Nat)) (i : Nat),
      sentIdxGo p i rs = match firstContainingIdx p i rs with
        | some j => (j : Int)
        | none => -1 := by
  intro rs
  induction rs with
  | nil => intro i; rfl
  | cons r rest ih =>
    intro i
    unfold sentIdxGo firstContainingIdx
    by_cases hc : (r.1 : Int) ≤ p ∧ p < (r.2 : Int)
    · rw [if_pos hc, if_pos hc]
    · rw [if_neg hc, if_neg hc]
      exact ih (i + 1)

theorem sentIdx_of_firstContainingIdx {p : Int} {ranges : List (Nat × Nat)}
    {i : Nat} (h : firstContainingIdx p 0 ranges = some i) :
    sentIdx p ranges = (i : Int) := by
  unfold sentIdx
  rw [sentIdxGo_eq p ranges 0, h]

/-- `_determine_subcategories` always returns at least one subcategory. -/
theorem determineSubcats_ne_nil (env : Env) (cat mword : List Char)
    (evidence : List (List Char)) (sws : List SWord) (mpos : Int)
    (sentRanges : List (Nat × Nat)) (text : List Char) :
    determineSubcats env cat mword evidence sws mpos sentRanges text ≠ [] := by
  unfold determineSubcats
  rcases assocFind env.SUBCATEGORY_MARKERS cat with _ | subcatMap
  · simp
  · dsimp only
    split_ifs <;> first | assumption | simp

/-- The three-stage count computation of `_determine_category_sentiment`
equals the claim's staged aggregation, given the three windows. -/
theorem stagedSentiment_eq (sws : List SWord) (w1 w2 w3 : Nat × Nat) :
    (let c1 := countSentInRange sws (w1.1 : Int) (w1.2 : Int)
     let c2 := if c1.1 = 0 ∧ c1.2.1 = 0 then
         countSentInRange sws (w2.1 : Int) (w2.2 : Int) else c1
     let c3 := if c2.1 = 0 ∧ c2.2.1 = 0 then
         countSentInRange sws (w3.1 : Int) (w3.2 : Int) else c2
     if c3.2.1 > c3.1 then "negative".data
     else if c3.1 > c3.2.1 then "positive".data
     else "neutral".data) = claimStagedSentiment sws w1 w2 w3 := by
  rcases hw1 : countSentInRange sws (w1.1 : Int) (w1.2 : Int) with ⟨p1, n1, ev1⟩
  rcases hw2 : countSentInRange sws (w2.1 : Int) (w2.2 : Int) with ⟨p2, n2, ev2⟩
  rcases hw3 : countSentInRange sws (w3.1 : Int) (w3.2 : Int) with ⟨p3, n3, ev3⟩
  have f1 := countSentInRange_fst sws w1
  have g1 := countSentInRange_snd sws w1
  have f2 := countSentInRange_fst sws w2
  have g2 := countSentInRange_snd sws w2
  have f3 := countSentInRange_fst sws w3
  have g3 := countSentInRange_snd sws w3
  rw [hw1] at f1 g1
  rw [hw2] at f2 g2
  rw [hw3] at f3 g3
  dsimp only at f1 g1 f2 g2 f3 g3
  unfold claimStagedSentiment
  dsimp only
  rw [← f1, ← g1, ← f2, ← g2, ← f3, ← g3]
  by_cases h1 : p1 = 0 ∧ n1 = 0
  · simp only [if_pos h1]
    by_cases h2 : p2 = 0 ∧ n2 = 0
    · simp only [if_pos h2]
      try rfl
    · simp only [if_neg h2]
      try rfl
  · simp only [if_neg h1]
    try rfl

/-- C6: for every category marker lying inside a phrase range and a sentence
range of the text, `_determine_category_sentiment` emits at least one tag,
and every emitted tag's sentiment equals the claim's staged aggregation:
evidence is counted over the comma-delimited phrase window, widened to the
period-delimited sentence window and then to the sentence window extended by
one neighboring sentence on each side while both weighted counts are zero;
a sentiment word whose surface form starts with `не ` weighs 2 and every
other one weighs 1; negative > positive gives Negative, positive > negative
gives Positive, equality (including all-zero) gives Neutral. -/
theorem C6_staged_window_sentiment (env : Env) (m : CMarker) (sws : List SWord)
    (text : List Char) (pr sr : Nat × Nat) (i : Nat)
    (hpr : firstContaining m.posn (getTextRanges text).1 = some pr)
    (hsr : firstContaining m.posn (getTextRanges text).2 = some sr)
    (hidx : firstContainingIdx m.posn 0 (getTextRanges text).2 = some i) :
    determineCategorySent env m sws (getTextRanges text).1 (getTextRanges text).2
      text ≠ [] ∧
    ∀ t ∈ determineCategorySent env m sws (getTextRanges text).1
        (getTextRanges text).2 text,
      t.sentiment = claimStagedSentiment sws pr sr
        (claimExtWindow (getTextRanges text).2 i) := by
  have hprr := positionInRange_of_firstContaining hpr
  have hsrr := positionInRange_of_firstContaining hsr
  have hidxv := sentIdx_of_firstContainingIdx hidx
  have hext : extRangeOf (getTextRanges text).2 ((i : Nat) : Int) =
      claimExtWindow (getTextRanges text).2 i := by
    unfold extRangeOf claimExtWindow
    rw [Int.toNat_natCast]
  unfold determineCategorySent
  dsimp only
  rw [hprr, hsrr, hidxv, if_pos (Int.natCast_nonneg i), hext]
  constructor
  · intro hnil
    exact determineSubcats_ne_nil env m.cat m.mword _ sws m.posn
      (getTextRanges text).2 text (List.map_eq_nil_iff.mp hnil)
  · intro t ht
    rw [List.mem_map] at ht
    obtain ⟨sc, hsc, rfl⟩ := ht
    exact stagedSentiment_eq sws pr sr (claimExtWindow (getTextRanges text).2 i)

/-- Witness for C6 at a concrete marker, sentiment word and text
(`плохо, сервис.`): the sentiment comes from the sentence window after the
phrase window turns up empty. -/
theorem C6_witness :
    (Tag.mk "Сервис".data "Сервис/персонал".data "negative".data "сервис".data
      ["плохо".data]).sentiment =
      claimStagedSentiment [⟨"плохо".data, "плохо".data, "negative".data, 0⟩]
        (6, 13) (0, 13) (claimExtWindow (getTextRanges "плохо, сервис.".data).2 0) :=
  (C6_staged_window_sentiment emptyEnv ⟨"Сервис".data, "сервис".data, 7⟩
    [⟨"плохо".data, "плохо".data, "negative".data, 0⟩] "плохо, сервис.".data
    (6, 13) (0, 13) 0 (by decide) (by decide) (by decide)).2
    (Tag.mk "Сервис".data "Сервис/персонал".data "negative".data "сервис".data
      ["плохо".data]) (by decide)

/-! ### Claims C4 and C5: structural lemmas for find_aspect_tags -/

/-- Members of an append-accumulating fold come from the seed or from one of
the per-element contributions. -/
theorem mem_foldl_append {β γ : Type} (f : β → List γ) (l : List β)
    (init : List γ) (t : γ)
    (ht : t ∈ l.foldl (fun acc m => acc ++ f m) init) :
    t ∈ init ∨ ∃ m ∈ l, t ∈ f m := by
  induction l generalizing init with
  | nil => exact Or.inl ht
  | cons m rest ih =>
    rw [List.foldl_cons] at ht
    rcases ih (init ++ f m) ht with h | ⟨m2, hm2, hm2t⟩
    · rcases List.mem_append.mp h with h | h
      · exact Or.inl h
      · exact Or.inr ⟨m, List.mem_cons_self m rest, h⟩
    · exact Or.inr ⟨m2, List.mem_cons_of_mem m hm2, hm2t⟩

/-- The deduplication pass only keeps original tags. -/
theorem dedupTagsGo_subset (seen : List (List Char × List Char)) (l : List Tag)
    (t : Tag) (ht : t ∈ dedupTagsGo seen l) : t ∈ l := by
  induction l generalizing seen with
  | nil => exact absurd ht (List.not_mem_nil t)
  | cons r rs ih =>
    unfold dedupTagsGo at ht
    split_ifs at ht with h
    · exact List.mem_cons_of_mem r (ih seen ht)
    · rcases List.mem_cons.mp ht with h1 | h1
      · exact h1 ▸ List.mem_cons_self r rs
      · exact List.mem_cons_of_mem r (ih _ h1)

/-- The deduplication pass yields pairwise-distinct
`(category, subcategory)` keys, none of them in `seen`. -/
theorem dedupTagsGo_pairwise (seen : List (List Char × List Char)) (l : List Tag) :
    (dedupTagsGo seen l).Pairwise
      (fun a b => ¬ ((a.category, a.subcategory) = (b.category, b.subcategory))) ∧
    ∀ t ∈ dedupTagsGo seen l, (t.category, t.subcategory) ∉ seen := by
  induction l generalizing seen with
  | nil => exact ⟨List.Pairwise.nil, fun t ht => absurd ht (List.not_mem_nil t)⟩
  | cons r rs ih =>
    unfold dedupTagsGo
    split_ifs with h
    · exact ih seen
    · rcases ih ((r.category, r.subcategory) :: seen) with ⟨hpw, hns⟩
      constructor
      · refine List.Pairwise.cons ?_ hpw
        intro b hb hbe
        exact hns b hb (hbe ▸ List.mem_cons_self _ _)
      · intro t ht
        rcases List.mem_cons.mp ht with h1 | h1
        · exact h1 ▸ h
        · intro hmem
          exact hns t h1 (List.mem_cons_of_mem _ hmem)

theorem dedupTags_pairwise (l : List Tag) :
    (dedupTags l).Pairwise
      (fun a b => ¬ ((a.category, a.subcategory) = (b.category, b.subcategory))) :=
  (dedupTagsGo_pairwise [] l).1

/-- Every tag of `_determine_category_sentiment` carries the marker's
category, and a subcategory chosen by `_determine_subcategories`. -/
theorem determineCategorySent_mem (env : Env) (m : CMarker) (sws : List SWord)
    (phraseR sentR : List (Nat × Nat)) (text : List Char) (t : Tag)
    (ht : t ∈ determineCategorySent env m sws phraseR sentR text) :
    t.category = m.cat ∧ ∃ ev, t.subcategory ∈
      determineSubcats env m.cat m.mword ev sws m.posn sentR text := by
  unfold determineCategorySent at ht
  dsimp only at ht
  rw [List.mem_map] at ht
  obtain ⟨sc, hsc, rfl⟩ := ht
  exact ⟨rfl, _, hsc⟩

/-- Range of `_determine_subcategories`: either a key of the category's
subcategory-marker table, or the category's default (first) taxonomy
subcategory. -/
theorem determineSubcats_mem (env : Env) (cat mword : List Char)
    (ev : List (List Char)) (sws : List SWord) (mpos : Int)
    (sentR : List (Nat × Nat)) (text : List Char) (s : List Char)
    (hs : s ∈ determineSubcats env cat mword ev sws mpos sentR text) :
    (∃ map, assocFind env.SUBCATEGORY_MARKERS cat = some map ∧
      s ∈ map.map Prod.fst) ∨
    s = (assocD IMPRESSION_CATEGORIES cat ["".data]).headD "".data := by
  unfold determineSubcats at hs
  rcases hmap : assocFind env.SUBCATEGORY_MARKERS cat with _ | subcatMap
  · rw [hmap] at hs
    exact Or.inr (List.mem_singleton.mp hs)
  · rw [hmap] at hs
    dsimp only at hs
    split_ifs at hs <;>
      first
        | exact Or.inr (List.mem_singleton.mp hs)
        | (refine Or.inl ⟨subcatMap, rfl, ?_⟩
           rw [List.mem_map] at hs
           obtain ⟨sm, hsm, rfl⟩ := hs
           exact List.mem_map_of_mem Prod.fst (List.mem_of_mem_filter hsm))

/-- The innermost marker loop preserves the category invariant. -/
theorem fcmPosFold_inv (cat w : List Char) (K : List (List Char)) (hcat : cat ∈ K)
    (ps : List Nat) :
    ∀ (st : List (List Char × Nat) × List CMarker),
      (∀ mk ∈ st.2, mk.cat ∈ K) →
      ∀ mk ∈ (ps.foldl (fcmPosFold cat w) st).2, mk.cat ∈ K := by
  induction ps with
  | nil => intro st hst mk hmk; exact hst mk hmk
  | cons q qs ih =>
    intro st hst mk hmk
    rw [List.foldl_cons] at hmk
    refine ih _ ?_ mk hmk
    intro mk2 hmk2
    unfold fcmPosFold at hmk2
    split_ifs at hmk2 with hq
    · exact hst mk2 hmk2
    · rcases List.mem_append.mp hmk2 with h2 | h2
      · exact hst mk2 h2
      · rw [List.mem_singleton.mp h2]
        exact hcat

/-- The word loop preserves the category invariant. -/
theorem fcmWordFold_inv (env : Env) (text : List Char)
    (p : List Char × List (List Char)) (K : List (List Char)) (hcat : p.1 ∈ K)
    (ws : List (List Char)) :
    ∀ (st : List (List Char × Nat) × List CMarker),
      (∀ mk ∈ st.2, mk.cat ∈ K) →
      ∀ mk ∈ (ws.foldl (fcmWordFold env text p) st).2, mk.cat ∈ K := by
  induction ws with
  | nil => intro st hst mk hmk; exact hst mk hmk
  | cons w wrest ih =>
    intro st hst mk hmk
    rw [List.foldl_cons] at hmk
    refine ih _ ?_ mk hmk
    unfold fcmWordFold
    split_ifs with hlem
    · exact fcmPosFold_inv p.1 w K hcat (findAllWordPos text w) st hst
    · exact hst

/-- Categories of explicit markers are keys of the merged category-lemma
table. -/
theorem findCategoryMarkers_cats (env : Env) (words : List (List Char))
    (text : List Char) (m : CMarker)
    (hm : m ∈ findCategoryMarkers env words text) :
    m.cat ∈ env.categoryLemmas.map Prod.fst := by
  unfold findCategoryMarkers at hm
  suffices h : ∀ (l : List (List Char × List (List Char)))
      (st : List (List Char × Nat) × List CMarker),
      (∀ p ∈ l, p.1 ∈ env.categoryLemmas.map Prod.fst) →
      (∀ mk ∈ st.2, mk.cat ∈ env.categoryLemmas.map Prod.fst) →
      ∀ mk ∈ (l.foldl (fun st p => words.foldl (fcmWordFold env text p) st) st).2,
        mk.cat ∈ env.categoryLemmas.map Prod.fst by
    exact h env.categoryLemmas ([], [])
      (fun p hp => List.mem_map_of_mem Prod.fst hp)
      (fun mk hmk => absurd hmk (List.not_mem_nil mk)) m hm
  intro l
  induction l with
  | nil => intro st _ hst mk hmk; exact hst mk hmk
  | cons p rest ih =>
    intro st hl hst mk hmk
    rw [List.foldl_cons] at hmk
    exact ih _ (fun q hq => hl q (List.mem_cons_of_mem p hq))
      (fcmWordFold_inv env text p _ (hl p (List.mem_cons_self p rest)) words st hst)
      mk hmk

/-- Categories of implicit markers are always `Сервис`. -/
theorem implicitMarkers_cats (env : Env) (tl : List Char) (m : CMarker)
    (hm : m ∈ implicitMarkers env tl) : m.cat = "Сервис".data := by
  unfold implicitMarkers at hm
  rw [List.mem_filterMap] at hm
  obtain ⟨p, _, hp⟩ := hm
  rcases ho : p.1 tl with _ | mt
  · rw [ho] at hp
    exact absurd hp (by simp)
  · rw [ho] at hp
    have hm2 := Option.some_inj.mp hp
    rw [← hm2]

/-- The head of every taxonomy category list belongs to that list. -/
theorem taxonomy_head_mem {c : List Char} {subs : List (List Char)}
    (h : assocFind IMPRESSION_CATEGORIES c = some subs) :
    subs.headD "".data ∈ subs := by
  unfold assocFind at h
  rcases hf : IMPRESSION_CATEGORIES.find? (fun p => p.1 = c) with _ | p
  · rw [hf] at h; exact absurd h (by simp)
  · rw [hf] at h
    have hp := List.mem_of_find?_eq_some hf
    have hsubs : subs = p.2 := (Option.some_inj.mp h).symm
    subst hsubs
    fin_cases hp <;> decide

/-- Shape of the tags `_find_tags` produces: the category is a key of
`CATEGORY_MARKERS` and the subcategory is that category\'s first taxonomy
subcategory. -/
def QsvcTag (env : Env) (t : STag) : Prop :=
  ∃ p ∈ env.CATEGORY_MARKERS, t.category = p.1 ∧
    t.subcategory = (assocD IMPRESSION_CATEGORIES p.1 ["".data]).headD "".data

/-- The `found` set only grows along the `_find_tags_in_segment` fold. -/
theorem ftisStep_fold_found_mono (env : Env) (seg snt : List Char)
    (l : List (List Char × List (List Char))) :
    ∀ (st : List STag × List (List Char)) (x : List Char),
      x ∈ st.2 → x ∈ (l.foldl (ftisStep env seg snt) st).2 := by
  induction l with
  | nil => intro st x hx; exact hx
  | cons p rest ih =>
    intro st x hx
    rw [List.foldl_cons]
    refine ih _ x ?_
    unfold ftisStep
    split_ifs
    · exact hx
    · exact List.mem_append_left _ hx
    · exact hx

/-- Tags accumulated by the `_find_tags_in_segment` fold have the
`QsvcTag` shape. -/
theorem ftisStep_fold_shape (env : Env) (seg snt : List Char)
    (l : List (List Char × List (List Char))) (hl : ∀ p ∈ l, p ∈ env.CATEGORY_MARKERS) :
    ∀ (st : List STag × List (List Char)),
      (∀ t ∈ st.1, QsvcTag env t) →
      ∀ t ∈ (l.foldl (ftisStep env seg snt) st).1, QsvcTag env t := by
  induction l with
  | nil => intro st hst t ht; exact hst t ht
  | cons p rest ih =>
    intro st hst t ht
    rw [List.foldl_cons] at ht
    refine ih (fun q hq => hl q (List.mem_cons_of_mem p hq)) _ ?_ t ht
    intro t2 ht2
    unfold ftisStep at ht2
    split_ifs at ht2
    · exact hst t2 ht2
    · rcases List.mem_append.mp ht2 with h2 | h2
      · exact hst t2 h2
      · rw [List.mem_singleton.mp h2]
        exact ⟨p, hl p (List.mem_cons_self p rest), rfl, rfl⟩
    · exact hst t2 ht2

/-- The `_find_tags_in_segment` fold keeps tag categories pairwise distinct
and recorded in the `found` set. -/
theorem ftisStep_fold_inv (env : Env) (seg snt : List Char)
    (l : List (List Char × List (List Char))) :
    ∀ (st : List STag × List (List Char)),
      (st.1.Pairwise (fun a b => ¬ a.category = b.category) ∧
        ∀ t ∈ st.1, t.category ∈ st.2) →
      ((l.foldl (ftisStep env seg snt) st).1.Pairwise
        (fun a b => ¬ a.category = b.category) ∧
       ∀ t ∈ (l.foldl (ftisStep env seg snt) st).1,
         t.category ∈ (l.foldl (ftisStep env seg snt) st).2) := by
  induction l with
  | nil => intro st hst; exact hst
  | cons p rest ih =>
    intro st hst
    rw [List.foldl_cons]
    refine ih _ ?_
    constructor
    · unfold ftisStep
      split_ifs with h1 h2
      · exact hst.1
      · rw [List.pairwise_append]
        refine ⟨hst.1, List.pairwise_singleton _ _, ?_⟩
        intro a ha b hb
        rw [List.mem_singleton.mp hb]
        intro hcat
        exact h1 ((show a.category = p.1 from hcat) ▸ hst.2 a ha)
      · exact hst.1
    · unfold ftisStep
      split_ifs with h1 h2
      · exact hst.2
      · intro t ht
        rcases List.mem_append.mp ht with h3 | h3
        · exact List.mem_append_left _ (hst.2 t h3)
        · rw [List.mem_singleton.mp h3]
          exact List.mem_append_right _ (List.mem_singleton.mpr rfl)
      · exact hst.2

/-- The `_find_tags_in_segment` fold adds no tag whose category was already
in a set below the initial `found` set. -/
theorem ftisStep_fold_fresh (env : Env) (seg snt : List Char)
    (F : List (List Char)) (l : List (List Char × List (List Char))) :
    ∀ (st : List STag × List (List Char)),
      ((∀ x ∈ F, x ∈ st.2) ∧ ∀ t ∈ st.1, t.category ∉ F) →
      ((∀ x ∈ F, x ∈ (l.foldl (ftisStep env seg snt) st).2) ∧
       ∀ t ∈ (l.foldl (ftisStep env seg snt) st).1, t.category ∉ F) := by
  induction l with
  | nil => intro st hst; exact hst
  | cons p rest ih =>
    intro st hst
    rw [List.foldl_cons]
    refine ih _ ?_
    constructor
    · intro x hx
      unfold ftisStep
      split_ifs
      · exact hst.1 x hx
      · exact List.mem_append_left _ (hst.1 x hx)
      · exact hst.1 x hx
    · intro t ht
      unfold ftisStep at ht
      split_ifs at ht with h1 h2
      · exact hst.2 t ht
      · rcases List.mem_append.mp ht with h3 | h3
        · exact hst.2 t h3
        · rw [List.mem_singleton.mp h3]
          intro hmem
          exact h1 (hst.1 p.1 hmem)
      · exact hst.2 t ht

/-- Every tag `_find_tags` returns has the `QsvcTag` shape. -/
theorem findTags_tags_shape (env : Env) (tl base : List Char) :
    ∀ t ∈ findTags env tl base, QsvcTag env t := by
  unfold findTags
  suffices h : ∀ (segs : List (List Char × List Char))
      (st : List STag × List (List Char)),
      (∀ t ∈ st.1, QsvcTag env t) →
      ∀ t ∈ (segs.foldl (ftSegStep env base) st).1, QsvcTag env t by
    exact h (segment_text env tl) ([], [])
      (fun t ht => absurd ht (List.not_mem_nil t))
  intro segs
  induction segs with
  | nil => intro st hst t ht; exact hst t ht
  | cons sp rest ih =>
    intro st hst t ht
    rw [List.foldl_cons] at ht
    refine ih _ ?_ t ht
    intro t2 ht2
    unfold ftSegStep at ht2
    dsimp only at ht2
    rcases List.mem_append.mp ht2 with h2 | h2
    · exact hst t2 h2
    · exact ftisStep_fold_shape env sp.1 _ env.CATEGORY_MARKERS (fun q hq => hq)
        ([], st.2) (fun q hq => absurd hq (List.not_mem_nil q)) t2 h2

/-- `_find_tags` never returns two tags of the same category. -/
theorem findTags_pairwise (env : Env) (tl base : List Char) :
    (findTags env tl base).Pairwise (fun a b => ¬ a.category = b.category) := by
  unfold findTags
  suffices h : ∀ (segs : List (List Char × List Char))
      (st : List STag × List (List Char)),
      (st.1.Pairwise (fun a b => ¬ a.category = b.category) ∧
        ∀ t ∈ st.1, t.category ∈ st.2) →
      ((segs.foldl (ftSegStep env base) st).1.Pairwise
        (fun a b => ¬ a.category = b.category) ∧
       ∀ t ∈ (segs.foldl (ftSegStep env base) st).1,
         t.category ∈ (segs.foldl (ftSegStep env base) st).2) by
    exact (h (segment_text env tl) ([], [])
      ⟨List.Pairwise.nil, fun t ht => absurd ht (List.not_mem_nil t)⟩).1
  intro segs
  induction segs with
  | nil => intro st hst; exact hst
  | cons sp rest ih =>
    intro st hst
    rw [List.foldl_cons]
    refine ih _ ?_
    have hinner := ftisStep_fold_inv env sp.1
      (if sp.2 = "default".data then base else sp.2) env.CATEGORY_MARKERS
      ([], st.2) ⟨List.Pairwise.nil, fun t ht => absurd ht (List.not_mem_nil t)⟩
    have hfresh := ftisStep_fold_fresh env sp.1
      (if sp.2 = "default".data then base else sp.2) st.2 env.CATEGORY_MARKERS
      ([], st.2) ⟨fun x hx => hx, fun t ht => absurd ht (List.not_mem_nil t)⟩
    constructor
    · unfold ftSegStep
      dsimp only
      rw [List.pairwise_append]
      refine ⟨hst.1, hinner.1, ?_⟩
      intro a ha b hb hcat
      exact hfresh.2 b hb (hcat ▸ hst.2 a ha)
    · unfold ftSegStep
      dsimp only
      intro t ht
      rcases List.mem_append.mp ht with h2 | h2
      · exact hfresh.1 _ (hst.2 t h2)
      · exact hinner.2 t h2

/-- The fallback result is always the `Общее`/`Общее впечатление` tag. -/
theorem createFallback_shape (pf nf : List (List Char)) (t : Tag)
    (ht : createFallback pf nf = some t) :
    t.category = "Общее".data ∧ t.subcategory = "Общее впечатление".data := by
  unfold createFallback at ht
  by_cases hb : pf = [] ∧ nf = []
  · rw [if_pos hb] at ht
    exact absurd ht (by simp)
  · rw [if_neg hb] at ht
    by_cases hn : nf.length > pf.length
    · rw [if_pos hn] at ht
      have he := Option.some_inj.mp ht
      subst he
      exact ⟨rfl, rfl⟩
    · rw [if_neg hn] at ht
      by_cases hp2 : pf.length > nf.length
      · rw [if_pos hp2] at ht
        have he := Option.some_inj.mp ht
        subst he
        exact ⟨rfl, rfl⟩
      · rw [if_neg hp2] at ht
        have he := Option.some_inj.mp ht
        subst he
        exact ⟨rfl, rfl⟩

/-- Every assembled tag is an input tag or the fallback tag. -/
theorem assembleTags_mem (pf nf : List (List Char)) (l : List Tag) (t : Tag)
    (ht : t ∈ assembleTags pf nf l) :
    t ∈ l ∨ createFallback pf nf = some t := by
  unfold assembleTags at ht
  dsimp only at ht
  by_cases h1 : l.filter (fun r => ¬ r.category = "Общее".data) ≠ []
  · rw [if_pos h1, if_neg (fun hq => h1 hq)] at ht
    exact Or.inl (List.mem_of_mem_filter ht)
  · rw [if_neg h1] at ht
    by_cases h2 : l = []
    · rw [if_pos h2] at ht
      rcases hcf : createFallback pf nf with _ | ft
      · rw [hcf] at ht
        simp at ht
      · rw [hcf] at ht
        dsimp only at ht
        rw [List.mem_singleton.mp ht]
        exact Or.inr rfl
    · rw [if_neg h2] at ht
      exact Or.inl ht

/-- Assembly preserves pairwise key distinctness. -/
theorem assembleTags_pairwise (pf nf : List (List Char)) (l : List Tag)
    (hl : l.Pairwise
      (fun a b => ¬ ((a.category, a.subcategory) = (b.category, b.subcategory)))) :
    (assembleTags pf nf l).Pairwise
      (fun a b => ¬ ((a.category, a.subcategory) = (b.category, b.subcategory))) := by
  unfold assembleTags
  dsimp only
  by_cases h1 : l.filter (fun r => ¬ r.category = "Общее".data) ≠ []
  · rw [if_pos h1, if_neg (fun hq => h1 hq)]
    exact List.Pairwise.sublist (List.filter_sublist l) hl
  · rw [if_neg h1]
    by_cases h2 : l = []
    · rw [if_pos h2]
      rcases createFallback pf nf with _ | ft
      · exact List.Pairwise.nil
      · exact List.pairwise_singleton _ _
    · rw [if_neg h2]
      exact hl

/-- After assembly the tags are either all non-`Общее` or all `Общее`. -/
theorem assembleTags_dichotomy (pf nf : List (List Char)) (l : List Tag) :
    (∀ t ∈ assembleTags pf nf l, ¬ t.category = "Общее".data) ∨
    (∀ t ∈ assembleTags pf nf l, t.category = "Общее".data) := by
  unfold assembleTags
  dsimp only
  by_cases h1 : l.filter (fun r => ¬ r.category = "Общее".data) ≠ []
  · rw [if_pos h1, if_neg (fun hq => h1 hq)]
    left
    intro t ht
    exact of_decide_eq_true (List.mem_filter.mp ht).2
  · rw [if_neg h1]
    by_cases h2 : l = []
    · rw [if_pos h2]
      right
      intro t ht
      rcases hcf : createFallback pf nf with _ | ft
      · rw [hcf] at ht
        simp at ht
      · rw [hcf] at ht
        dsimp only at ht
        rw [List.mem_singleton.mp ht]
        exact (createFallback_shape pf nf ft hcf).1
    · rw [if_neg h2]
      right
      intro t ht
      by_contra hne
      exact h1 (List.ne_nil_of_mem (List.mem_filter.mpr ⟨ht, decide_eq_true hne⟩))

/-- The non-whitespace output of `find_aspect_tags` is an assembly of
deduplicated marker tags; each underlying tag carries a category from the
category-lemma table (or the implicit `Сервис`) and a subcategory from the
subcategory table or the taxonomy default. -/
theorem find_aspect_tags_assemble (env : Env) (text : List Char) :
    find_aspect_tags env text = [] ∨
    ∃ pf nf res, find_aspect_tags env text = assembleTags pf nf (dedupTags res) ∧
      ∀ t ∈ res,
        (t.category ∈ env.categoryLemmas.map Prod.fst ∨ t.category = "Сервис".data) ∧
        ((∃ map, assocFind env.SUBCATEGORY_MARKERS t.category = some map ∧
            t.subcategory ∈ map.map Prod.fst) ∨
          t.subcategory = (assocD IMPRESSION_CATEGORIES t.category ["".data]).headD "".data) := by
  by_cases hws : text = [] ∨ pyStrip text = []
  · left
    unfold find_aspect_tags
    rw [if_pos hws]
  · right
    have heq : find_aspect_tags env text =
        assembleTags
          (collectWordSents env (tokenize (pyLower text)) text env.rusentilex
            (collectNegation env (tokenize (pyLower text)) (pyLower text) text
              (collectPatternSents env text (pyLower text)).1)).pf
          (collectWordSents env (tokenize (pyLower text)) text env.rusentilex
            (collectNegation env (tokenize (pyLower text)) (pyLower text) text
              (collectPatternSents env text (pyLower text)).1)).nf
          (dedupTags ((findCategoryMarkers env (tokenize (pyLower text)) text ++
              (collectPatternSents env text (pyLower text)).2).foldl
            (fun acc m => acc ++ determineCategorySent env m
              (collectWordSents env (tokenize (pyLower text)) text env.rusentilex
                (collectNegation env (tokenize (pyLower text)) (pyLower text) text
                  (collectPatternSents env text (pyLower text)).1)).sws
              (getTextRanges text).1 (getTextRanges text).2 text) [])) := by
      unfold find_aspect_tags
      rw [if_neg hws]
    refine ⟨_, _, _, heq, ?_⟩
    intro t ht
    rcases mem_foldl_append _ _ _ t ht with h | ⟨m, hm, hmt⟩
    · exact absurd h (List.not_mem_nil t)
    · obtain ⟨hcat, ev, hsub⟩ := determineCategorySent_mem env m _ _ _ _ t hmt
      constructor
      · rcases List.mem_append.mp hm with h2 | h2
        · exact Or.inl (hcat ▸ findCategoryMarkers_cats env _ text m h2)
        · exact Or.inr (hcat ▸ implicitMarkers_cats env _ m h2)
      · rcases determineSubcats_mem env m.cat m.mword ev _ m.posn _ text
          t.subcategory hsub with ⟨map, hmap, hsm⟩ | hdef
        · exact Or.inl ⟨map, hcat ▸ hmap, hsm⟩
        · exact Or.inr (by rw [hcat]; exact hdef)

theorem validTaxPair_of {c s : List Char} {subs : List (List Char)}
    (hfind : assocFind IMPRESSION_CATEGORIES c = some subs) (hs : s ∈ subs) :
    validTaxPair c s = true := by
  unfold validTaxPair
  rw [hfind]
  exact decide_eq_true hs

theorem isGeneralPair_of {c s : List Char} (hc : c = "Общее".data)
    (hs : s = "Общее впечатление".data) : isGeneralPair c s = true := by
  unfold isGeneralPair
  rw [hc, hs]
  decide

/-- The tags of `analyze_review_impressions` are the `Общее` fallback or
`_find_tags` output. -/
theorem analyze_tags_cases (env : Env) (text : List Char) (rating : Int)
    (t : STag) (ht : t ∈ (analyze_review_impressions env text rating).1) :
    (t.category = "Общее".data ∧ t.subcategory = "Общее впечатление".data) ∨
      QsvcTag env t := by
  unfold analyze_review_impressions at ht
  dsimp only at ht
  split_ifs at ht <;>
    first
      | (rw [List.mem_singleton.mp ht]; exact Or.inl ⟨rfl, rfl⟩)
      | exact Or.inr (findTags_tags_shape env (pyLower text) _ t ht)

/-- `analyze_review_impressions` yields either only `_find_tags`-shaped tags
or the single fallback tag. -/
theorem analyze_tags_dichotomy (env : Env) (text : List Char) (rating : Int) :
    (∀ t ∈ (analyze_review_impressions env text rating).1, QsvcTag env t) ∨
    (∃ g, (analyze_review_impressions env text rating).1 = [g] ∧
      g.category = "Общее".data) := by
  unfold analyze_review_impressions
  dsimp only
  split_ifs <;>
    first
      | exact Or.inr ⟨_, rfl, rfl⟩
      | exact Or.inl (findTags_tags_shape env (pyLower text) _)

/-- The tags of `analyze_review_impressions` never repeat a
`(category, subcategory)` pair. -/
theorem analyze_tags_pairwise (env : Env) (text : List Char) (rating : Int) :
    ((analyze_review_impressions env text rating).1).Pairwise
      (fun a b => ¬ ((a.category, a.subcategory) = (b.category, b.subcategory))) := by
  unfold analyze_review_impressions
  dsimp only
  split_ifs <;>
    first
      | exact List.pairwise_singleton _ _
      | (refine List.Pairwise.imp ?_ (findTags_pairwise env (pyLower text) _)
         intro a b hcat hpair
         exact hcat (congrArg Prod.fst hpair))

/-! ### Claim C4 -/

/-- Counterexample to C4: the fallback tag's category `Общее` is not a key
of the `IMPRESSION_CATEGORIES` taxonomy map, so the claim fails on the tag
`analyze_review_impressions` returns for empty text. -/
theorem C4_counterexample_general_not_in_taxonomy :
    assocFind IMPRESSION_CATEGORIES "Общее".data = none ∧
    (∃ t ∈ (analyze_review_impressions emptyEnv [] 3).1,
      t.category = "Общее".data ∧ validTaxPair t.category t.subcategory = false) := by
  decide

/-- C4 amended: under the well-formedness of the modelled marker tables
(category-lemma keys and services `CATEGORY_MARKERS` keys are taxonomy
categories; each subcategory-marker key belongs to its category's taxonomy
list), every tag of `find_aspect_tags` and of `analyze_review_impressions`
either is a valid taxonomy `(category, subcategory)` pair or is the
`Общее`/`Общее впечатление` fallback tag — whose category is not a taxonomy
key. -/
theorem C4_amended_taxonomy (env : Env)
    (hcat : ∀ p ∈ env.categoryLemmas,
      (assocFind IMPRESSION_CATEGORIES p.1).isSome = true)
    (hsub : ∀ c map, assocFind env.SUBCATEGORY_MARKERS c = some map →
      ∀ subs, assocFind IMPRESSION_CATEGORIES c = some subs →
        ∀ sm ∈ map, sm.1 ∈ subs)
    (hsvc : ∀ p ∈ env.CATEGORY_MARKERS,
      (assocFind IMPRESSION_CATEGORIES p.1).isSome = true)
    (text : List Char) (rating : Int) :
    (∀ t ∈ find_aspect_tags env text,
      validTaxPair t.category t.subcategory = true ∨
        isGeneralPair t.category t.subcategory = true) ∧
    (∀ t ∈ (analyze_review_impressions env text rating).1,
      validTaxPair t.category t.subcategory = true ∨
        isGeneralPair t.category t.subcategory = true) := by
  constructor
  · intro t ht
    rcases find_aspect_tags_assemble env text with hnil | ⟨pf, nf, res, heq, hres⟩
    · rw [hnil] at ht
      exact absurd ht (List.not_mem_nil t)
    · rw [heq] at ht
      rcases assembleTags_mem pf nf _ t ht with hmem | hfb
      · have hresmem := hres t (dedupTagsGo_subset [] res t hmem)
        obtain ⟨hcatm, hsubm⟩ := hresmem
        have hsome : (assocFind IMPRESSION_CATEGORIES t.category).isSome = true := by
          rcases hcatm with h2 | h2
          · rw [List.mem_map] at h2
            obtain ⟨p, hp, hp1⟩ := h2
            rw [← hp1]
            exact hcat p hp
          · rw [h2]
            decide
        obtain ⟨subs, hfind⟩ := Option.isSome_iff_exists.mp hsome
        rcases hsubm with ⟨map, hmap, hsm⟩ | hdef
        · rw [List.mem_map] at hsm
          obtain ⟨sm, hsmm, hsm1⟩ := hsm
          exact Or.inl (validTaxPair_of hfind
            (hsm1 ▸ hsub t.category map hmap subs hfind sm hsmm))
        · refine Or.inl (validTaxPair_of hfind ?_)
          rw [hdef]
          unfold assocD
          rw [hfind]
          exact taxonomy_head_mem hfind
      · have hshape := createFallback_shape pf nf t hfb
        exact Or.inr (isGeneralPair_of hshape.1 hshape.2)
  · intro t ht
    rcases analyze_tags_cases env text rating t ht with hgen | ⟨p, hp, hcateq, hsubeq⟩
    · exact Or.inr (isGeneralPair_of hgen.1 hgen.2)
    · have hsome : (assocFind IMPRESSION_CATEGORIES p.1).isSome = true := hsvc p hp
      obtain ⟨subs, hfind⟩ := Option.isSome_iff_exists.mp hsome
      refine Or.inl ?_
      rw [hcateq]
      refine validTaxPair_of hfind ?_
      rw [hsubeq]
      unfold assocD
      rw [hfind]
      exact taxonomy_head_mem hfind

/-- Witness for C4 at a concrete environment whose category-lemma table maps
`сервис` to `Сервис`: the analyzer emits the valid pair
`(Сервис, Сервис/персонал)`. -/
theorem C4_witness :
    validTaxPair "Сервис".data "Сервис/персонал".data = true ∨
      isGeneralPair "Сервис".data "Сервис/персонал".data = true :=
  (C4_amended_taxonomy serviceEnv
    (by intro p hp
        simp only [serviceEnv, emptyEnv] at hp
        rw [List.mem_singleton] at hp
        subst hp
        decide)
    (by intro c map hmap
        exact absurd hmap (by simp [serviceEnv, emptyEnv, assocFind]))
    (by intro p hp
        exact absurd hp (List.not_mem_nil p))
    "сервис".data 3).1
    (Tag.mk "Сервис".data "Сервис/персонал".data "neutral".data "сервис".data [])
    (by decide)

/-! ### Claim C5 -/

/-- C5: whenever the services marker table has no `Общее` key (as the
taxonomy-derived table does), neither `find_aspect_tags` nor
`analyze_review_impressions` ever returns two tags sharing a
`(category, subcategory)` pair, and whenever some returned tag has a
category other than `Общее`, no `Общее` tag is present in that result. -/
theorem C5_no_duplicates_no_general_mix (env : Env)
    (hG : ∀ p ∈ env.CATEGORY_MARKERS, ¬ p.1 = "Общее".data)
    (text : List Char) (rating : Int) :
    ((find_aspect_tags env text).Pairwise
      (fun a b => ¬ ((a.category, a.subcategory) = (b.category, b.subcategory)))) ∧
    ((∃ t ∈ find_aspect_tags env text, ¬ t.category = "Общее".data) →
      ∀ t ∈ find_aspect_tags env text, ¬ t.category = "Общее".data) ∧
    (((analyze_review_impressions env text rating).1).Pairwise
      (fun a b => ¬ ((a.category, a.subcategory) = (b.category, b.subcategory)))) ∧
    ((∃ t ∈ (analyze_review_impressions env text rating).1,
        ¬ t.category = "Общее".data) →
      ∀ t ∈ (analyze_review_impressions env text rating).1,
        ¬ t.category = "Общее".data) := by
  refine ⟨?_, ?_, ?_, ?_⟩
  · rcases find_aspect_tags_assemble env text with hnil | ⟨pf, nf, res, heq, -⟩
    · rw [hnil]
      exact List.Pairwise.nil
    · rw [heq]
      exact assembleTags_pairwise pf nf _ (dedupTags_pairwise res)
  · rcases find_aspect_tags_assemble env text with hnil | ⟨pf, nf, res, heq, -⟩
    · intro _ t ht
      rw [hnil] at ht
      exact absurd ht (List.not_mem_nil t)
    · rw [heq]
      rcases assembleTags_dichotomy pf nf (dedupTags res) with hall | hgen
      · intro _
        exact hall
      · rintro ⟨t0, ht0, hne⟩
        exact absurd (hgen t0 ht0) hne
  · exact analyze_tags_pairwise env text rating
  · rcases analyze_tags_dichotomy env text rating with hall | ⟨g, hg, hgc⟩
    · rintro - t ht hgen
      obtain ⟨p, hp, hcateq, -⟩ := hall t ht
      exact hG p hp (hcateq ▸ hgen)
    · rintro ⟨t0, ht0, hne⟩ t ht
      rw [hg, List.mem_singleton] at ht0
      exact absurd (by rw [ht0]; exact hgc) hne

/-- Witness for C5 at a concrete environment and text producing a
specific-category tag. -/
theorem C5_witness :
    ((find_aspect_tags serviceEnv "сервис".data).Pairwise
      (fun a b => ¬ ((a.category, a.subcategory) = (b.category, b.subcategory)))) ∧
    ((∃ t ∈ find_aspect_tags serviceEnv "сервис".data,
        ¬ t.category = "Общее".data) →
      ∀ t ∈ find_aspect_tags serviceEnv "сервис".data,
        ¬ t.category = "Общее".data) ∧
    (((analyze_review_impressions serviceEnv "сервис".data 3).1).Pairwise
      (fun a b => ¬ ((a.category, a.subcategory) = (b.category, b.subcategory)))) ∧
    ((∃ t ∈ (analyze_review_impressions serviceEnv "сервис".data 3).1,
        ¬ t.category = "Общее".data) →
      ∀ t ∈ (analyze_review_impressions serviceEnv "сервис".data 3).1,
        ¬ t.category = "Общее".data) :=
  C5_no_duplicates_no_general_mix serviceEnv
    (fun p hp => absurd hp (List.not_mem_nil p)) "сервис".data 3

end QRService
